import Mathlib

/-!
# Verification of the route-following core (`routing/route.cpp`)

A shallow embedding of the route class from `routing/route.cpp` and proofs of the
specification claims about it.

Modeling conventions, applied uniformly:

* Geometry. The polyline projector (`FollowedPolyline`), the mercator conversions and
  `MercatorBounds::DistanceOnEarth` are external collaborators (spec section 1).  Points are
  modeled as one-dimensional rational coordinates along a line, with
  `distOnEarth p q = |p - q|`; the arc length between vertex iterators
  (`FollowedPolyline::GetDistanceM`) is the sum of consecutive point distances.  This
  realizes the projector metric contract exactly on collinear geometry (which the spec
  scenarios themselves use), and every claim under verification is about index bookkeeping
  and interpolation, not about curvature.
* Numbers. C++ `double` becomes `ℚ` (exact); `(uint32_t)` casts of nonnegative doubles
  become truncation `truncToNat` (a cast of a negative double is UB in C++; it is modeled
  as `0`).  `my::AlmostEqualULPs(x, 0.)` becomes exact equality with `0` on `ℚ`.
* Failure. `CHECK*` macros abort in every build; they are modeled as `Option`/`Except`
  failure (`none` / `.error`).  `ASSERT*` macros are debug-only and do not abort a release
  build; they are modeled as no-ops (noted where they occur).  An out-of-bounds vector or
  iterator access is undefined behaviour and is likewise modeled as failure.
* The projector cursor (`FollowedPolyline::Iter`, fields `m_pt`, `m_ind`) is external
  mutable state of the polyline; queries receive it as an explicit argument.
-/

set_option maxHeartbeats 1000000

/- The rational arithmetic operations are `@[irreducible]` upstream, which blocks the
evaluation of concrete witnesses; restore the default reducibility so that `decide` can
evaluate the executable model on concrete routes. -/
set_option allowUnsafeReducibility true in
attribute [semireducible] Rat.add Rat.mul Rat.sub Rat.div Rat.inv Rat.neg

namespace Routing

/-- `traffic::SpeedGroup` (external enum; full constructor list from `traffic/speed_groups.hpp`). -/
inductive SpeedGroup where
  | G0 | G1 | G2 | G3 | G4 | G5 | TempBlock | Unknown
deriving DecidableEq, Repr

/-- `routing::turns::TurnDirection`, abridged to the constructors the core logic uses
(the remaining turn kinds are not distinguished by any code under verification). -/
inductive TurnDirection where
  | NoTurn | GoStraight | TurnLeft | TurnRight | ReachedYourDestination
deriving DecidableEq, Repr

/-- `routing::turns::TurnItem`: a vertex index paired with a turn direction. -/
structure TurnItem where
  m_index : ℕ
  m_turn : TurnDirection
deriving DecidableEq, Repr

/-- Default-constructed `TurnItem` (used by `GetSubrouteInfo` for edges without a turn). -/
def TurnItem.mk0 : TurnItem := ⟨0, TurnDirection.NoTurn⟩

/-- `MercatorBounds::DistanceOnEarth` in the 1-D collinear model: absolute difference. -/
def distOnEarth (p q : ℚ) : ℚ := |p - q|

/-- Cumulative arc length from vertex `0` to vertex `i` of a point list
(the quantity maintained by `FollowedPolyline` for its distance queries). -/
def cumTo (pts : List ℚ) : ℕ → ℚ
  | 0 => 0
  | i + 1 => cumTo pts i + distOnEarth (pts.getD i 0) (pts.getD (i + 1) 0)

/-- `FollowedPolyline::GetDistanceM` between the iterators of vertices `i` and `j`
(arc length along the polyline). -/
def distFn (pts : List ℚ) (i j : ℕ) : ℚ := cumTo pts j - cumTo pts i

/-- `FollowedPolyline::Iter`: the projected point `m_pt` and the index `m_ind` of the
segment the cursor lies on. -/
structure Iter where
  m_pt : ℚ
  m_ind : ℕ
deriving DecidableEq, Repr

/-- A cursor state the projector can produce: `m_pt` lies on the segment starting at
vertex `m_ind`, or the cursor sits exactly on the final vertex. -/
def IterValid (pts : List ℚ) (c : Iter) : Prop :=
  (c.m_ind + 1 < pts.length ∧
      min (pts.getD c.m_ind 0) (pts.getD (c.m_ind + 1) 0) ≤ c.m_pt ∧
      c.m_pt ≤ max (pts.getD c.m_ind 0) (pts.getD (c.m_ind + 1) 0)) ∨
  (c.m_ind + 1 = pts.length ∧ c.m_pt = pts.getD c.m_ind 0)

instance (pts : List ℚ) (c : Iter) : Decidable (IterValid pts c) := by
  unfold IterValid; infer_instance

/-- Distance from the cursor point back to the vertex that starts its segment
(`MercatorBounds::DistanceOnEarth(iter.m_pt, poly.GetPoint(iter.m_ind))`). -/
def iterOff (pts : List ℚ) (c : Iter) : ℚ := distOnEarth c.m_pt (pts.getD c.m_ind 0)

/-- Arc-length position of the cursor from the route start. -/
def iterPos (pts : List ℚ) (c : Iter) : ℚ := cumTo pts c.m_ind + iterOff pts c

/-- `(uint32_t)` cast of a `double`: truncation toward zero for nonnegative values;
a negative value is UB in C++ and is modeled as `0`. -/
def truncToNat (q : ℚ) : ℕ := if q < 0 then 0 else q.num.toNat / q.den

/-- `std::upper_bound`, modeled by its standard-library contract on a range partitioned
by the predicate: the position of the first element satisfying it (the length if none). -/
def upperBoundIdx (p : α → Bool) (l : List α) : ℕ := l.findIdx p

/-- The route state of `routing::Route` that the verified operations touch.
`m_simplifiedPoly`, `m_currentTime`, `m_absentCountries`, `m_name`, `m_router` and the
subroute id carry no claim and are omitted.  The two consumed routing settings are kept. -/
structure Route where
  points : List ℚ
  turns : List TurnItem
  times : List (ℕ × ℚ)
  streets : List (ℕ × String)
  altitudes : List ℤ
  traffic : List SpeedGroup
  matchingThresholdM : ℚ
  matchRoute : Bool
deriving DecidableEq, Repr

/-- Modelled from the spec: `Route::IsValid` lives in `route.hpp`, outside `src/`; per the
spec a path is meaningful from two vertices up (section 3: table invariants apply
"whenever the path has >= 2 vertices", and a one-point polyline has no edge). -/
def polyIsValid (pts : List ℚ) : Bool := decide (1 < pts.length)

/-- `Route::IsValid`. -/
def Route.isValid (r : Route) : Bool := polyIsValid r.points

/-- `Route::GetTotalTimeSec`: `m_times.empty() ? 0 : m_times.back().second`, returned
as `uint32_t`. -/
def Route.getTotalTimeSec (r : Route) : ℕ :=
  match r.times.getLast? with
  | none => 0
  | some t => truncToNat t.2

/-- The branch of `Route::GetCurrentTimeToEndSec` taken once `upper_bound` has produced
the in-range position `k` (the `target` checkpoint), before the `uint32_t` cast. -/
def Route.timeToTargetQ (r : Route) (c : Iter) (k : ℕ) : ℚ :=
  let target := r.times.getD k (0, 0)
  let time : ℚ := target.2 - (if 0 < k then (r.times.getD (k - 1) (0, 0)).2 else 0)
  let dist : ℚ := distFn r.points (if 0 < k then (r.times.getD (k - 1) (0, 0)).1 else 0) target.1
  if dist ≠ 0 then
    ((r.getTotalTimeSec : ℚ) - target.2) +
      time * ((distFn r.points c.m_ind target.1 - distOnEarth c.m_pt (r.points.getD c.m_ind 0)) / dist)
  else
    ((r.getTotalTimeSec : ℚ) - target.2)

/-- `Route::GetCurrentTimeToEndSec` (route.cpp:124-162).  The `upper_bound` comparator is
`v < item.first`, so the target is the first checkpoint with index strictly greater than
the cursor index; `it == end` returns `0`.  The two leading `ASSERT`s are debug-only. -/
def Route.getCurrentTimeToEndSec (r : Route) (c : Iter) : ℕ :=
  if r.times.isEmpty ∨ r.points.length = 0 then 0
  else
    let k := upperBoundIdx (fun item => decide (c.m_ind < item.1)) r.times
    if k < r.times.length then truncToNat (r.timeToTargetQ c k) else 0

/-- Claim C1's remaining-time description, parameterized by the comparison used to pick
the target checkpoint (`cmp i idx` reads: checkpoint index `idx` is eligible for cursor
vertex index `i`): binary-search the time table for the first eligible checkpoint, 0 if
none; `segTime` = target time minus previous checkpoint's time (0 if the target is the
first entry); `segDist` = arc length between the previous checkpoint's vertex and the
target vertex; `remDist` = arc length between the cursor and the target vertex; result is
`(T - target.time) + segTime * (remDist / segDist)` when `segDist` is not zero and
`T - target.time` otherwise. -/
def timeToEndSpec (cmp : ℕ → ℕ → Bool) (r : Route) (c : Iter) : ℕ :=
  if r.times.isEmpty ∨ r.points.length = 0 then 0
  else
    let k := r.times.findIdx (fun item => cmp c.m_ind item.1)
    if k < r.times.length then
      let target := r.times.getD k (0, 0)
      let segTime : ℚ := target.2 - (if k = 0 then 0 else (r.times.getD (k - 1) (0, 0)).2)
      let segDist : ℚ :=
        distFn r.points (if k = 0 then 0 else (r.times.getD (k - 1) (0, 0)).1) target.1
      let remDist : ℚ := |cumTo r.points target.1 - iterPos r.points c|
      if segDist ≠ 0 then
        truncToNat (((r.getTotalTimeSec : ℚ) - target.2) + segTime * (remDist / segDist))
      else
        truncToNat ((r.getTotalTimeSec : ℚ) - target.2)
    else 0

/-- Claim C1 as stated: the target is the first checkpoint with index >= the cursor
vertex index. -/
def timeToEndSpecGE (r : Route) (c : Iter) : ℕ :=
  timeToEndSpec (fun i idx => decide (i ≤ idx)) r c

/-- Claim C1 amended: the target is the first checkpoint with index strictly greater
than the cursor vertex index (the comparator `route.cpp` actually passes). -/
def timeToEndSpecGT (r : Route) (c : Iter) : ℕ :=
  timeToEndSpec (fun i idx => decide (i < idx)) r c

/-! ## Basic lemmas about the geometric model -/

theorem cumTo_le_succ (pts : List ℚ) (i : ℕ) : cumTo pts i ≤ cumTo pts (i + 1) := by
  have h : 0 ≤ distOnEarth (pts.getD i 0) (pts.getD (i + 1) 0) := abs_nonneg _
  simpa [cumTo] using h

theorem cumTo_mono (pts : List ℚ) {i j : ℕ} (h : i ≤ j) : cumTo pts i ≤ cumTo pts j := by
  induction j, h using Nat.le_induction with
  | base => exact le_refl _
  | succ j hij ih => exact le_trans ih (cumTo_le_succ pts j)

theorem cumTo_nonneg (pts : List ℚ) (i : ℕ) : 0 ≤ cumTo pts i := by
  have h := cumTo_mono pts (Nat.zero_le i)
  simpa [cumTo] using h

theorem iterOff_nonneg (pts : List ℚ) (c : Iter) : 0 ≤ iterOff pts c := abs_nonneg _

theorem iterPos_nonneg (pts : List ℚ) (c : Iter) : 0 ≤ iterPos pts c :=
  add_nonneg (cumTo_nonneg pts c.m_ind) (iterOff_nonneg pts c)

theorem iterPos_le_cumTo_succ (pts : List ℚ) (c : Iter) (hv : IterValid pts c) :
    iterPos pts c ≤ cumTo pts (c.m_ind + 1) := by
  rcases hv with ⟨_, hmin, hmax⟩ | ⟨_, hpt⟩
  · have hle : iterOff pts c ≤ distOnEarth (pts.getD c.m_ind 0) (pts.getD (c.m_ind + 1) 0) := by
      unfold iterOff distOnEarth
      rw [abs_sub_comm]
      have hmm : max (pts.getD c.m_ind 0) (pts.getD (c.m_ind + 1) 0) -
          min (pts.getD c.m_ind 0) (pts.getD (c.m_ind + 1) 0) =
          |pts.getD c.m_ind 0 - pts.getD (c.m_ind + 1) 0| := by
        rw [max_sub_min_eq_abs, abs_sub_comm]
      rw [← hmm, abs_sub_le_iff]
      constructor
      · have h1 : pts.getD c.m_ind 0 ≤ max (pts.getD c.m_ind 0) (pts.getD (c.m_ind + 1) 0) :=
          le_max_left _ _
        linarith
      · have h1 : min (pts.getD c.m_ind 0) (pts.getD (c.m_ind + 1) 0) ≤ pts.getD c.m_ind 0 :=
          min_le_left _ _
        linarith
    unfold iterPos
    show cumTo pts c.m_ind + iterOff pts c ≤
      cumTo pts c.m_ind + distOnEarth (pts.getD c.m_ind 0) (pts.getD (c.m_ind + 1) 0)
    linarith
  · have hoff : iterOff pts c = 0 := by simp [iterOff, distOnEarth, hpt]
    unfold iterPos
    rw [hoff, add_zero]
    exact cumTo_le_succ pts c.m_ind

theorem iterPos_le_cumTo (pts : List ℚ) (c : Iter) (hv : IterValid pts c) {j : ℕ}
    (hj : c.m_ind < j) : iterPos pts c ≤ cumTo pts j :=
  le_trans (iterPos_le_cumTo_succ pts c hv) (cumTo_mono pts hj)

/-! ## Lemmas about the `uint32_t` cast -/

theorem truncToNat_eq_floor_toNat (q : ℚ) : truncToNat q = (⌊q⌋).toNat := by
  unfold truncToNat
  by_cases hq : q < 0
  · rw [if_pos hq]
    have hfl : ⌊q⌋ < 0 := by
      rw [Int.floor_lt]
      simpa using hq
    omega
  · rw [if_neg hq]
    push_neg at hq
    have hnum : 0 ≤ q.num := Rat.num_nonneg.mpr hq
    rw [Rat.floor_def]
    have h1 : q.num = ((q.num.toNat : ℕ) : ℤ) := (Int.toNat_of_nonneg hnum).symm
    rw [h1]
    rw [show ((q.num.toNat : ℕ) : ℤ) / ((q.den : ℕ) : ℤ) = ((q.num.toNat / q.den : ℕ) : ℤ)
      from (Int.ofNat_div _ _).symm]
    exact (Int.toNat_ofNat _).symm

theorem truncToNat_mono {q r : ℚ} (h : q ≤ r) : truncToNat q ≤ truncToNat r := by
  rw [truncToNat_eq_floor_toNat, truncToNat_eq_floor_toNat]
  exact Int.toNat_le_toNat (Int.floor_le_floor h)

/-! ## `findIdx` helper lemmas -/

theorem findIdx_mono_pred {α : Type _} (p q : α → Bool) (l : List α)
    (h : ∀ a, q a = true → p a = true) : l.findIdx p ≤ l.findIdx q := by
  induction l with
  | nil => simp
  | cons a t ih =>
    by_cases hpa : p a = true
    · simp [List.findIdx_cons, hpa]
    · have hpa' : p a = false := by simpa using hpa
      have hqa : q a = false := by
        cases hq : q a
        · rfl
        · exact absurd (h a hq) hpa
      rw [List.findIdx_cons, List.findIdx_cons, hpa', hqa]
      simpa using Nat.succ_le_succ ih

/-! ## Claim C1: the remaining-time formula -/

/-- The cursor vertex index is strictly below the target checkpoint's vertex index
(the found position satisfies the `upper_bound` predicate). -/
theorem target_index_gt (r : Route) (c : Iter)
    (hk : r.times.findIdx (fun item => decide (c.m_ind < item.1)) < r.times.length) :
    c.m_ind <
      (r.times.getD (r.times.findIdx (fun item => decide (c.m_ind < item.1))) (0, 0)).1 := by
  have h := @List.findIdx_getElem _ (fun item => decide (c.m_ind < item.1)) r.times hk
  rw [List.getD_eq_getElem r.times (0, 0) hk]
  simpa using h

/-- The spec's `remDist` (arc length between cursor and target vertex) agrees with the
code's `distFn(ind, target) - DistanceOnEarth(pt, points[ind])` whenever the cursor is a
valid projector state sitting at or before the target vertex. -/
theorem remDist_abs_eq (pts : List ℚ) (c : Iter) (hv : IterValid pts c) {τ : ℕ}
    (hτ : c.m_ind < τ) :
    |cumTo pts τ - iterPos pts c| =
      distFn pts c.m_ind τ - distOnEarth c.m_pt (pts.getD c.m_ind 0) := by
  have hnn : 0 ≤ cumTo pts τ - iterPos pts c :=
    sub_nonneg.mpr (iterPos_le_cumTo pts c hv hτ)
  rw [abs_of_nonneg hnn]
  unfold iterPos iterOff distFn
  ring

/-- C1 (amended): `GetCurrentTimeToEndSec` computes exactly the claimed interpolation
formula, with the target being the first checkpoint whose index is strictly greater
than the cursor vertex index. -/
theorem C1_remaining_time_strict_target (r : Route) (c : Iter) (ht : r.times ≠ [])
    (hv : IterValid r.points c) :
    r.getCurrentTimeToEndSec c = timeToEndSpecGT r c := by
  simp only [Route.getCurrentTimeToEndSec, timeToEndSpecGT, timeToEndSpec, upperBoundIdx]
  by_cases hg : r.times.isEmpty = true ∨ r.points.length = 0
  · rw [if_pos hg, if_pos hg]
  · rw [if_neg hg, if_neg hg]
    set k := List.findIdx (fun item => decide (c.m_ind < item.1)) r.times with hkdef
    by_cases hlt : k < r.times.length
    · rw [if_pos hlt, if_pos hlt]
      have hτ : c.m_ind < (r.times.getD k (0, 0)).1 := target_index_gt r c hlt
      have hrem := remDist_abs_eq r.points c hv hτ
      have hswapN : (if 0 < k then (r.times.getD (k - 1) (0, 0)).1 else 0) =
          (if k = 0 then 0 else (r.times.getD (k - 1) (0, 0)).1) := by
        by_cases h0 : k = 0 <;> simp [h0, Nat.pos_of_ne_zero]
      have hswapQ : (if 0 < k then (r.times.getD (k - 1) (0, 0)).2 else 0) =
          (if k = 0 then (0 : ℚ) else (r.times.getD (k - 1) (0, 0)).2) := by
        by_cases h0 : k = 0 <;> simp [h0, Nat.pos_of_ne_zero]
      simp only [Route.timeToTargetQ]
      rw [hswapN, hswapQ, hrem, apply_ite truncToNat]
    · rw [if_neg hlt, if_neg hlt]

/-- C1 counterexample: on the route with vertices at 0,100,200,300,400 m, time table
[(2,10),(4,40)] and the cursor 50 m past vertex 2, the code (target = first checkpoint
with index strictly greater than 2) answers 22 s, while the claim's rule (target = first
checkpoint with index >= 2) yields 32 s. -/
def rC1 : Route :=
  { points := [0, 100, 200, 300, 400], turns := [], times := [(2, 10), (4, 40)],
    streets := [], altitudes := [], traffic := [], matchingThresholdM := 50,
    matchRoute := true }

/-- Cursor 50 m past vertex 2 of `rC1`. -/
def cC1 : Iter := ⟨250, 2⟩

/-- C1 is false as stated: at `rC1`/`cC1` the code's answer differs from the claimed
">= i" target selection (22 s versus 32 s). -/
theorem C1_ge_target_counterexample :
    rC1.getCurrentTimeToEndSec cC1 = 22 ∧ timeToEndSpecGE rC1 cC1 = 32 ∧
      rC1.getCurrentTimeToEndSec cC1 ≠ timeToEndSpecGE rC1 cC1 := by
  refine ⟨by decide, by decide, by decide⟩

/-- Witness for C1 (amended) at the spec's own scenario: 5 collinear points 100 m apart,
one checkpoint (4, 40), cursor on vertex 2. -/
def rC1w : Route :=
  { points := [0, 100, 200, 300, 400], turns := [], times := [(4, 40)],
    streets := [], altitudes := [], traffic := [], matchingThresholdM := 50,
    matchRoute := true }

/-- Witness: the amended C1 theorem applied at a concrete route and cursor; the shared
value is the scenario's expected 20 s. -/
theorem C1_witness :
    rC1w.getCurrentTimeToEndSec ⟨200, 2⟩ = timeToEndSpecGT rC1w ⟨200, 2⟩ ∧
      rC1w.getCurrentTimeToEndSec ⟨200, 2⟩ = 20 :=
  ⟨C1_remaining_time_strict_target rC1w ⟨200, 2⟩ (by decide) (by decide), by decide⟩

/-! ## Claim C4: current-turn lookup -/

/-- Arc length from the cursor to vertex `j`
(`m_poly.GetDistanceM(m_poly.GetCurrentIter(), m_poly.GetIterToIndex(j))`). -/
def distCursorToVertex (pts : List ℚ) (c : Iter) (j : ℕ) : ℚ := cumTo pts j - iterPos pts c

/-- `Route::GetCurrentTurn` (route.cpp:164-175): `upper_bound` over the turn table with
comparator `lhs.m_index < rhs.m_index` applied to a probe item holding the cursor index;
yields the position of the first entry with index strictly above the cursor index.  The
leading `ASSERT` is debug-only. -/
def Route.getCurrentTurnIdx (r : Route) (c : Iter) : ℕ :=
  upperBoundIdx (fun t => decide (c.m_ind < t.m_index)) r.turns

/-- `Route::GetCurrentTurn(double &, TurnItem &)` (route.cpp:224-238): dereferences the
`upper_bound` position and pairs the turn with the distance from the cursor to its
vertex; `it == m_turns.end()` returns `false` (modeled `none`; its `ASSERT(false)` is
debug-only). -/
def Route.getCurrentTurn (r : Route) (c : Iter) : Option (ℚ × TurnItem) :=
  match r.turns[r.getCurrentTurnIdx c]? with
  | none => none
  | some t => some (distCursorToVertex r.points c t.m_index, t)

/-- C4: with a sorted turn table and the cursor standing exactly on the vertex of the
turn at position `j`, the current-turn query selects position `j + 1`: the first entry
with index strictly greater than the cursor index (so the *next* turn, not the one at
the cursor's vertex), and the boolean query returns it with its distance (`none` when no
entry lies strictly ahead). -/
theorem C4_current_turn_strict_upper_bound (r : Route) (c : Iter) (j : ℕ)
    (hsorted : r.turns.Pairwise (fun a b => a.m_index < b.m_index))
    (hj : j < r.turns.length) (hon : (r.turns.getD j TurnItem.mk0).m_index = c.m_ind) :
    r.getCurrentTurnIdx c = j + 1 ∧
    (∀ k, (hk : k < r.turns.length) →
      (c.m_ind < (r.turns.getD k TurnItem.mk0).m_index ↔ j + 1 ≤ k)) ∧
    r.getCurrentTurn c =
      (r.turns[j + 1]?).map (fun t => (distCursorToVertex r.points c t.m_index, t)) := by
  have hpg := List.pairwise_iff_getElem.mp hsorted
  have hgetD : ∀ k, (hk : k < r.turns.length) →
      (r.turns.getD k TurnItem.mk0) = r.turns[k] := fun k hk =>
    List.getD_eq_getElem r.turns TurnItem.mk0 hk
  have hiff : ∀ k, (hk : k < r.turns.length) →
      (c.m_ind < (r.turns.getD k TurnItem.mk0).m_index ↔ j + 1 ≤ k) := by
    intro k hk
    constructor
    · intro hlt
      by_contra hle
      push_neg at hle
      have hkj : k ≤ j := Nat.lt_succ_iff.mp hle
      have hle2 : (r.turns.getD k TurnItem.mk0).m_index ≤
          (r.turns.getD j TurnItem.mk0).m_index := by
        rw [hgetD k hk, hgetD j hj]
        rcases Nat.lt_or_ge k j with hkj2 | hkj2
        · exact le_of_lt (hpg k j hk hj hkj2)
        · have hkeq : k = j := le_antisymm hkj hkj2
          subst hkeq
          exact le_refl _
      rw [hon] at hle2
      omega
    · intro hge
      have hlt2 : (r.turns.getD j TurnItem.mk0).m_index <
          (r.turns.getD k TurnItem.mk0).m_index := by
        rw [hgetD k hk, hgetD j hj]
        exact hpg j k hj hk (Nat.lt_of_succ_le hge)
      rw [hon] at hlt2
      exact hlt2
  have hfind : r.getCurrentTurnIdx c = j + 1 := by
    unfold Route.getCurrentTurnIdx upperBoundIdx
    rcases Nat.lt_or_ge (j + 1) r.turns.length with hjl | hjl
    · apply (List.findIdx_eq hjl).mpr
      constructor
      · have h1 := (hiff (j + 1) hjl).mpr (le_refl _)
        rw [hgetD (j + 1) hjl] at h1
        simpa using h1
      · intro i hi
        have hil : i < r.turns.length := lt_trans hi hjl
        have h2 : ¬ (c.m_ind < (r.turns.getD i TurnItem.mk0).m_index) := by
          rw [hiff i hil]
          omega
        rw [hgetD i hil] at h2
        simpa using h2
    · have hjlen : j + 1 = r.turns.length := le_antisymm (Nat.succ_le_of_lt hj) hjl
      rw [hjlen]
      apply List.findIdx_eq_length.mpr
      intro a ha
      obtain ⟨i, hi, rfl⟩ := List.mem_iff_getElem.mp ha
      have h2 : ¬ (c.m_ind < (r.turns.getD i TurnItem.mk0).m_index) := by
        rw [hiff i hi]
        omega
      rw [hgetD i hi] at h2
      simpa using h2
  refine ⟨hfind, hiff, ?_⟩
  unfold Route.getCurrentTurn
  rw [hfind]
  cases r.turns[j + 1]? <;> rfl

/-- Concrete route for the C4 witness: turns at vertices 2 and 4, cursor on vertex 2. -/
def rC4 : Route :=
  { points := [0, 100, 200, 300, 400],
    turns := [⟨2, TurnDirection.TurnRight⟩, ⟨4, TurnDirection.ReachedYourDestination⟩],
    times := [(4, 40)], streets := [], altitudes := [], traffic := [],
    matchingThresholdM := 50, matchRoute := true }

/-- Witness for C4: cursor exactly on the turn at vertex 2 selects the following turn
(the destination marker at vertex 4), 200 m ahead. -/
theorem C4_witness :
    rC4.getCurrentTurnIdx ⟨200, 2⟩ = 1 ∧
      rC4.getCurrentTurn ⟨200, 2⟩ =
        some (200, ⟨4, TurnDirection.ReachedYourDestination⟩) := by
  have h := C4_current_turn_strict_upper_bound rC4 ⟨200, 2⟩ 0
    (by decide) (by decide) (by decide)
  refine ⟨h.1, ?_⟩
  rw [h.2.2]
  decide

/-! ## Street-table queries (claims C3 and C10) -/

/-- The street-name look-ahead threshold `kSteetNameLinkMeters` (sic, route.cpp:33). -/
def kSteetNameLinkMeters : ℚ := 400

/-- The `prevIter`/`curIter` walk of `Route::GetCurrentStreetNameIterAfter`
(route.cpp:202-222), with `c` the position of `curIter` (so `prevIter` is `c - 1`).
The loop guard evaluates `curIter->first` *before* checking for the table end, so a
table whose end has been reached dereferences the past-the-end iterator: undefined
behaviour, modeled `Except.error ()`.  `Except.ok none` models returning `cend()`. -/
def streetsWalkAux (ind : ℕ) : List (ℕ × String) → ℕ → Except Unit (Option ℕ)
  | [], _ => Except.error ()
  | e :: rest, c =>
    if e.1 < ind then
      match rest with
      | [] => Except.ok none
      | _ :: _ => streetsWalkAux ind rest (c + 1)
    else Except.ok (some (if e.1 = ind then c else c - 1))

/-- The walk at absolute position `c` operates on the table suffix starting there:
the empty suffix is the `cend()` dereference, an exhausted successor suffix is the
in-loop `curIter == cend()` return. -/
def streetsWalkLoop (streets : List (ℕ × String)) (ind : ℕ) (c : ℕ) :
    Except Unit (Option ℕ) :=
  streetsWalkAux ind (streets.drop c) c

/-- `Route::GetCurrentStreetNameIterAfter` (route.cpp:202-222): empty table returns
`cend()`; otherwise the walk starts with `curIter` on the second position. -/
def Route.getCurrentStreetNameIterAfter (r : Route) (ind : ℕ) : Except Unit (Option ℕ) :=
  if r.streets.isEmpty then Except.ok none
  else streetsWalkLoop r.streets ind 1

/-- `Route::GetCurrentStreetName` (route.cpp:177-184): name of the entry the walk stops
on; the empty string when the walk returns `cend()`. -/
def Route.getCurrentStreetName (r : Route) (c : Iter) : Except Unit String :=
  match r.getCurrentStreetNameIterAfter c.m_ind with
  | Except.error e => Except.error e
  | Except.ok none => Except.ok ""
  | Except.ok (some k) => Except.ok ((r.streets.getD k (0, "")).2)

/-- The forward scan of `Route::GetStreetNameAfterIdx` (route.cpp:193-199): first
non-empty name at or after the walk position, gated by the 400 m look-ahead distance. -/
def streetScanAux (pts : List ℚ) (pind : ℕ) : List (ℕ × String) → String
  | [] => ""
  | e :: rest =>
    if e.2 = "" then streetScanAux pts pind rest
    else if distFn pts pind (max e.1 pind) < kSteetNameLinkMeters then e.2 else ""

/-- The scan at absolute position `it` operates on the table suffix starting there. -/
def streetScanLoop (streets : List (ℕ × String)) (pts : List ℚ) (pind : ℕ) (it : ℕ) :
    String :=
  streetScanAux pts pind (streets.drop it)

/-- `Route::GetStreetNameAfterIdx` (route.cpp:186-200). -/
def Route.getStreetNameAfterIdx (r : Route) (idx : ℕ) : Except Unit String :=
  match r.getCurrentStreetNameIterAfter idx with
  | Except.error e => Except.error e
  | Except.ok none => Except.ok ""
  | Except.ok (some k) => Except.ok (streetScanLoop r.streets r.points idx k)

/-- Route with a single-entry street table, a state the data model allows. -/
def rC10 : Route :=
  { points := [0, 100], turns := [], times := [], streets := [(0, "A")],
    altitudes := [], traffic := [], matchingThresholdM := 50, matchRoute := true }

/-- C10 fails on the code: on a street table with exactly one entry the walk initializes
`curIter` to the second position, which *is* `cend()`, and the loop guard dereferences
it; both street queries hit this out-of-bounds read (modeled `.error ()`). -/
theorem C10_single_entry_walk_oob :
    rC10.getCurrentStreetName ⟨100, 1⟩ = Except.error () ∧
      rC10.getStreetNameAfterIdx 1 = Except.error () := by
  constructor <;> rfl

/-! ## Claim C3: the current-street walk -/

/-- One unfolding of the walk at an in-bounds position. -/
theorem streetsWalkLoop_step (streets : List (ℕ × String)) (ind c : ℕ)
    (hc : c < streets.length) :
    streetsWalkLoop streets ind c =
      if (streets.getD c (0, "")).1 < ind then
        (if c + 1 = streets.length then Except.ok none
          else streetsWalkLoop streets ind (c + 1))
      else Except.ok (some (if (streets.getD c (0, "")).1 = ind then c else c - 1)) := by
  have hgd : streets.getD c (0, "") = streets.get ⟨c, hc⟩ := by
    simpa using List.getD_eq_getElem streets (0, "") hc
  conv_lhs => rw [streetsWalkLoop, List.drop_eq_getElem_cons hc]
  rw [hgd]
  cases hdrop : streets.drop (c + 1) with
  | nil =>
    have hlen : c + 1 = streets.length := by
      have h1 := List.drop_eq_nil_iff.mp hdrop
      omega
    simp [streetsWalkAux, hlen]
  | cons h t =>
    have hlen : c + 1 ≠ streets.length := by
      intro hcon
      rw [List.drop_eq_nil_iff.mpr (le_of_eq hcon.symm)] at hdrop
      exact absurd hdrop (by simp)
    simp only [streetsWalkAux, hlen, if_neg hlen, streetsWalkLoop, hdrop]
    simp [List.get_eq_getElem]

/-- If every entry from position `c` on lies strictly below the cursor index, the walk
runs off the table and returns `cend()`. -/
theorem streetsWalk_none (streets : List (ℕ × String)) (ind : ℕ) :
    ∀ d c, streets.length - c = d → c < streets.length →
      (∀ j, c ≤ j → j < streets.length → (streets.getD j (0, "")).1 < ind) →
      streetsWalkLoop streets ind c = Except.ok none := by
  intro d
  induction d with
  | zero =>
    intro c hd hc _
    omega
  | succ d ih =>
    intro c hd hc hall
    rw [streetsWalkLoop_step streets ind c hc,
      if_pos (hall c (le_refl c) hc)]
    by_cases hend : c + 1 = streets.length
    · rw [if_pos hend]
    · rw [if_neg hend]
      exact ih (c + 1) (by omega) (by omega) (fun j h1 h2 => hall j (by omega) h2)

/-- If `m` is the first position at or after `c` whose entry index reaches the cursor
index, the walk stops there: on the entry itself on an exact hit, else on `prevIter`. -/
theorem streetsWalk_finds (streets : List (ℕ × String)) (ind : ℕ) (m : ℕ)
    (hm : m < streets.length) (hge : ind ≤ (streets.getD m (0, "")).1) :
    ∀ d c, m - c = d → c ≤ m →
      (∀ j, c ≤ j → j < m → (streets.getD j (0, "")).1 < ind) →
      streetsWalkLoop streets ind c =
        Except.ok (some (if (streets.getD m (0, "")).1 = ind then m else m - 1)) := by
  intro d
  induction d with
  | zero =>
    intro c hd hcm _
    have hceq : c = m := by omega
    subst hceq
    rw [streetsWalkLoop_step streets ind c hm, if_neg (by omega)]
  | succ d ih =>
    intro c hd hcm hbelow
    have hcltm : c < m := by omega
    rw [streetsWalkLoop_step streets ind c (lt_trans hcltm hm),
      if_pos (hbelow c (le_refl c) hcltm)]
    have hend : c + 1 ≠ streets.length := by omega
    rw [if_neg hend]
    exact ih (c + 1) (by omega) (by omega) (fun j h1 h2 => hbelow j (by omega) h2)

/-- Claim C3's description of the answer: the street-table entry with the greatest index
at or below the cursor vertex index. -/
def coveringStreet (streets : List (ℕ × String)) (i : ℕ) : Option (ℕ × String) :=
  (streets.filter (fun e => decide (e.1 ≤ i))).getLast?

/-- On a sorted table, if the entry at `p` has index at or below `i` and every later
entry lies strictly above `i`, then the covering entry is exactly the entry at `p`. -/
theorem coveringStreet_at (streets : List (ℕ × String)) (i p : ℕ)
    (hsorted : streets.Pairwise (fun a b => a.1 < b.1)) (hp : p < streets.length)
    (hle : (streets.getD p (0, "")).1 ≤ i)
    (hgt : ∀ q, p < q → (hq : q < streets.length) → i < (streets.getD q (0, "")).1) :
    coveringStreet streets i = some (streets.getD p (0, "")) := by
  have hpg := List.pairwise_iff_getElem.mp hsorted
  have hgd : ∀ k, (hk : k < streets.length) → streets.getD k (0, "") = streets[k] :=
    fun k hk => List.getD_eq_getElem streets (0, "") hk
  have hfilter : streets.filter (fun e => decide (e.1 ≤ i)) = streets.take (p + 1) := by
    conv_lhs => rw [← List.take_append_drop (p + 1) streets]
    rw [List.filter_append]
    have h1 : (streets.take (p + 1)).filter (fun e => decide (e.1 ≤ i)) =
        streets.take (p + 1) := by
      rw [List.filter_eq_self]
      intro a ha
      obtain ⟨q, hq, rfl⟩ := List.mem_iff_getElem.mp ha
      rw [List.getElem_take]
      have hql : q < streets.length := by
        have := List.length_take_le (p + 1) streets
        omega
      have hqp : q ≤ p := by
        rw [List.length_take] at hq
        omega
      simp only [decide_eq_true_eq]
      rcases Nat.lt_or_ge q p with hqp2 | hqp2
      · have := hpg q p hql hp hqp2
        rw [hgd p hp] at hle
        omega
      · have hqep : q = p := le_antisymm hqp hqp2
        subst hqep
        rw [hgd q hp] at hle
        exact hle
    have h2 : (streets.drop (p + 1)).filter (fun e => decide (e.1 ≤ i)) = [] := by
      rw [List.filter_eq_nil_iff]
      intro a ha
      obtain ⟨q, hq, rfl⟩ := List.mem_iff_getElem.mp ha
      rw [List.getElem_drop]
      have hql : p + 1 + q < streets.length := by
        rw [List.length_drop] at hq
        omega
      have := hgt (p + 1 + q) (by omega) hql
      rw [hgd _ hql] at this
      simp only [decide_eq_true_eq]
      omega
    rw [h1, h2, List.append_nil]
  have hlast : (List.take (p + 1) streets).getLast? = some streets[p] := by
    rw [List.getLast?_eq_getElem?]
    have hlt : (List.take (p + 1) streets).length = p + 1 := by
      rw [List.length_take]
      omega
    rw [hlt, Nat.add_sub_cancel, List.getElem?_take_of_succ]
    exact List.getElem?_eq_getElem hp
  rw [coveringStreet, hfilter, hlast, hgd p hp]

/-- C3 (amended): on a sorted street table with at least two entries whose first entry
covers the cursor (its index is at or below the cursor vertex index), the current-street
query returns the name of the entry with the greatest index at or below the cursor index
whenever some entry at or after the second position has index at or above the cursor
index; if instead every entry after the first lies strictly below the cursor index, the
walk runs off the table and the query returns the empty string. -/
theorem C3_current_street_amended (r : Route) (c : Iter)
    (hsorted : r.streets.Pairwise (fun a b => a.1 < b.1))
    (hlen : 2 ≤ r.streets.length)
    (hfirst : (r.streets.getD 0 (0, "")).1 ≤ c.m_ind) :
    ((∃ j, 1 ≤ j ∧ j < r.streets.length ∧ c.m_ind ≤ (r.streets.getD j (0, "")).1) →
        r.getCurrentStreetName c =
          Except.ok (((coveringStreet r.streets c.m_ind).map Prod.snd).getD "")) ∧
    ((∀ j, 1 ≤ j → j < r.streets.length → (r.streets.getD j (0, "")).1 < c.m_ind) →
        r.getCurrentStreetName c = Except.ok "") := by
  have hne : r.streets.isEmpty = false := by
    cases hs : r.streets with
    | nil => rw [hs] at hlen; simp at hlen
    | cons a t => simp
  have hpg := List.pairwise_iff_getElem.mp hsorted
  have hgd : ∀ k, (hk : k < r.streets.length) → r.streets.getD k (0, "") = r.streets[k] :=
    fun k hk => List.getD_eq_getElem r.streets (0, "") hk
  constructor
  · intro hex
    have hexP : ∃ j, 1 ≤ j ∧ j < r.streets.length ∧ c.m_ind ≤ (r.streets.getD j (0, "")).1 :=
      hex
    classical
    let P : ℕ → Prop := fun j => 1 ≤ j ∧ j < r.streets.length ∧
      c.m_ind ≤ (r.streets.getD j (0, "")).1
    have hPex : ∃ j, P j := hexP
    let m := Nat.find hPex
    obtain ⟨hm1, hmlen, hmge⟩ : P m := Nat.find_spec hPex
    have hmin : ∀ j, j < m → ¬ P j := fun j hj => Nat.find_min hPex hj
    have hbelow : ∀ j, 1 ≤ j → j < m → (r.streets.getD j (0, "")).1 < c.m_ind := by
      intro j hj1 hjm
      have hjlen : j < r.streets.length := lt_trans hjm hmlen
      have := hmin j hjm
      simp only [P, not_and, not_le] at this
      exact this hj1 hjlen
    have hwalk := streetsWalk_finds r.streets c.m_ind m hmlen hmge (m - 1) 1 rfl hm1
      (fun j h1 h2 => hbelow j h1 h2)
    have hcover : coveringStreet r.streets c.m_ind =
        some (r.streets.getD (if (r.streets.getD m (0, "")).1 = c.m_ind then m else m - 1)
          (0, "")) := by
      by_cases heq : (r.streets.getD m (0, "")).1 = c.m_ind
      · rw [if_pos heq]
        apply coveringStreet_at r.streets c.m_ind m hsorted hmlen (le_of_eq heq)
        intro q hq hql
        have := hpg m q hmlen hql hq
        rw [← hgd m hmlen, ← hgd q hql, heq] at this
        exact this
      · rw [if_neg heq]
        have hmgt : c.m_ind < (r.streets.getD m (0, "")).1 :=
          lt_of_le_of_ne hmge (fun hcon => heq hcon.symm)
        apply coveringStreet_at r.streets c.m_ind (m - 1) hsorted (by omega)
        · rcases hm1.eq_or_lt with h1m | h1m
          · rw [← h1m]
            simpa using hfirst
          · exact le_of_lt (hbelow (m - 1) (by omega) (by omega))
        · intro q hq hql
          rcases Nat.lt_or_ge q m with hqm | hqm
          · have hqem : q = m := by omega
            subst hqem
            exact hmgt
          · rcases hqm.eq_or_lt with hqem | hqgt
            · rw [hqem] at hmgt
              exact hmgt
            · have := hpg m q hmlen hql hqgt
              rw [← hgd m hmlen, ← hgd q hql] at this
              omega
    rw [Route.getCurrentStreetName, Route.getCurrentStreetNameIterAfter, hne]
    simp only [Bool.false_eq_true, if_neg (by simp : ¬ (False : Prop))]
    rw [hwalk, hcover]
    simp
  · intro hall
    have hwalk := streetsWalk_none r.streets c.m_ind (r.streets.length - 1) 1 rfl
      (by omega) (fun j h1 h2 => hall j h1 h2)
    rw [Route.getCurrentStreetName, Route.getCurrentStreetNameIterAfter, hne]
    simp only [Bool.false_eq_true, if_neg (by simp : ¬ (False : Prop))]
    rw [hwalk]

/-- Route for C3 counterexample part 1: cursor beyond the last street entry. -/
def rC3a : Route :=
  { points := [0, 100, 200, 300, 400], turns := [], times := [],
    streets := [(0, "A"), (3, "B")], altitudes := [], traffic := [],
    matchingThresholdM := 50, matchRoute := true }

/-- Route for C3 counterexample part 2: a single-entry street table. -/
def rC3b : Route :=
  { points := [0, 100], turns := [], times := [], streets := [(0, "A")],
    altitudes := [], traffic := [], matchingThresholdM := 50, matchRoute := true }

/-- Route for C3 counterexample part 3: every street entry lies beyond the cursor. -/
def rC3c : Route :=
  { points := [0, 100, 200, 300, 400], turns := [], times := [],
    streets := [(2, "A"), (3, "B")], altitudes := [], traffic := [],
    matchingThresholdM := 50, matchRoute := true }

/-- C3 is false as stated, three ways: (1) with street table [(0,A),(3,B)] and the
cursor on vertex 4 the walk runs off the table and answers the empty string although the
greatest index at or below 4 is entry (3,B); (2) a single-entry table is undefined
behaviour, not a name; (3) with table [(2,A),(3,B)] and cursor vertex 1 the code answers
"A" although no entry has index at or below 1 (and the table is not empty). -/
theorem C3_counterexample :
    (rC3a.getCurrentStreetName ⟨400, 4⟩ = Except.ok "" ∧
      coveringStreet rC3a.streets 4 = some (3, "B")) ∧
    rC3b.getCurrentStreetName ⟨100, 1⟩ = Except.error () ∧
    (rC3c.getCurrentStreetName ⟨100, 1⟩ = Except.ok "A" ∧
      coveringStreet rC3c.streets 1 = none) :=
  ⟨⟨rfl, rfl⟩, rfl, rfl, rfl⟩

/-- Route for the C3 witness: the spec's own scenario table [(0,A),(3,B)]. -/
def rC3w : Route :=
  { points := [0, 100, 200, 300, 400], turns := [], times := [],
    streets := [(0, "A"), (3, "B")], altitudes := [], traffic := [],
    matchingThresholdM := 50, matchRoute := true }

/-- Witness for C3 (amended) at the scenario: cursor at vertex 1 yields "A", cursor at
vertex 3 yields "B". -/
theorem C3_witness :
    rC3w.getCurrentStreetName ⟨100, 1⟩ =
        Except.ok (((coveringStreet rC3w.streets 1).map Prod.snd).getD "") ∧
      rC3w.getCurrentStreetName ⟨100, 1⟩ = Except.ok "A" ∧
      rC3w.getCurrentStreetName ⟨300, 3⟩ = Except.ok "B" :=
  ⟨(C3_current_street_amended rC3w ⟨100, 1⟩ (by decide) (by decide) (by decide)).1
      ⟨1, by decide, by decide, by decide⟩,
    rfl, rfl⟩

/-! ## Route merging (claims C2, C5, C7) -/

/-- The `for (auto t : route.m_turns)` rebase-and-append loop of `AppendRoute`
(route.cpp:433-439): skip entries at index 0, shift the rest by `off`, `push_back`. -/
def appendTurnsLoop (acc : List TurnItem) (src : List TurnItem) (off : ℕ) : List TurnItem :=
  src.foldl (fun l t => if t.m_index = 0 then l else l ++ [⟨t.m_index + off, t.m_turn⟩]) acc

/-- The street-name loop of `AppendRoute` (route.cpp:442-448). -/
def appendStreetsLoop (acc : List (ℕ × String)) (src : List (ℕ × String)) (off : ℕ) :
    List (ℕ × String) :=
  src.foldl (fun l s => if s.1 = 0 then l else l ++ [(s.1 + off, s.2)]) acc

/-- The time loop of `AppendRoute` (route.cpp:451-458): the kept entries are shifted in
index by `off` and in cumulative time by `estT`. -/
def appendTimesLoop (acc : List (ℕ × ℚ)) (src : List (ℕ × ℚ)) (off : ℕ) (estT : ℚ) :
    List (ℕ × ℚ) :=
  src.foldl (fun l t => if t.1 = 0 then l else l ++ [(t.1 + off, t.2 + estT)]) acc

theorem appendTurnsLoop_eq (acc src : List TurnItem) (off : ℕ) :
    appendTurnsLoop acc src off =
      acc ++ (src.filter (fun t => decide (t.m_index ≠ 0))).map
        (fun t => ⟨t.m_index + off, t.m_turn⟩) := by
  induction src generalizing acc with
  | nil => simp [appendTurnsLoop]
  | cons t ts ih =>
    by_cases h0 : t.m_index = 0 <;>
      simp [appendTurnsLoop, List.foldl_cons, h0, ih ((fun l => l) _), List.filter_cons] <;>
      simp [appendTurnsLoop] at ih <;> rw [ih] <;> simp

theorem appendStreetsLoop_eq (acc src : List (ℕ × String)) (off : ℕ) :
    appendStreetsLoop acc src off =
      acc ++ (src.filter (fun s => decide (s.1 ≠ 0))).map (fun s => (s.1 + off, s.2)) := by
  induction src generalizing acc with
  | nil => simp [appendStreetsLoop]
  | cons t ts ih =>
    by_cases h0 : t.1 = 0 <;>
      simp [appendStreetsLoop, List.foldl_cons, h0, List.filter_cons] <;>
      simp [appendStreetsLoop] at ih <;> rw [ih] <;> simp

theorem appendTimesLoop_eq (acc src : List (ℕ × ℚ)) (off : ℕ) (estT : ℚ) :
    appendTimesLoop acc src off estT =
      acc ++ (src.filter (fun t => decide (t.1 ≠ 0))).map
        (fun t => (t.1 + off, t.2 + estT)) := by
  induction src generalizing acc with
  | nil => simp [appendTimesLoop]
  | cons t ts ih =>
    by_cases h0 : t.1 = 0 <;>
      simp [appendTimesLoop, List.foldl_cons, h0, List.filter_cons] <;>
      simp [appendTimesLoop] at ih <;> rw [ih] <;> simp

/-- `Route::AppendTraffic` (route.cpp:370-404), exactly as called mid-merge from
`AppendRoute` (`this` has its polyline already popped, its traffic untouched).
Parameters: A's traffic, A's popped point list, and the appended route B.
`none` models a `CHECK` failure. -/
def appendTraffic (aTraffic : List SpeedGroup) (aPts : List ℚ) (b : Route) :
    Option (List SpeedGroup) :=
  if ¬ b.isValid then none
  else if aTraffic.isEmpty ∧ b.traffic.isEmpty then some aTraffic
  else if ¬ polyIsValid aPts then some b.traffic
  else
    let t1 := if aTraffic.isEmpty then List.replicate aPts.length SpeedGroup.Unknown
      else aTraffic
    if t1.length ≠ aPts.length then none
    else if b.traffic.isEmpty then
      if b.points.length < 1 then none
      else some (t1 ++ List.replicate (b.points.length - 1) SpeedGroup.Unknown)
    else some (t1 ++ b.traffic)

/-- The tail of `AppendRoute` after the pop phase (route.cpp:430-467), with `pts1`,
`turns1`, `times1` the popped tables and `estT` the pre-merge `estimatedTime`. -/
def appendRouteCore (a b : Route) (pts1 : List ℚ) (turns1 : List TurnItem)
    (times1 : List (ℕ × ℚ)) (estT : ℚ) : Option Route :=
  let indexOffset := pts1.length
  let newTurns := appendTurnsLoop turns1 b.turns indexOffset
  let newStreets := appendStreetsLoop a.streets b.streets indexOffset
  let newTimes := appendTimesLoop times1 b.times indexOffset estT
  match appendTraffic a.traffic pts1 b with
  | none => none
  | some newTraffic =>
    let newPoints := pts1 ++ b.points
    if ¬ newTraffic.isEmpty ∧ newTraffic.length + 1 ≠ newPoints.length then none
    else
      some { a with
        points := newPoints
        turns := newTurns
        streets := newStreets
        times := newTimes
        traffic := newTraffic }

/-- `Route::AppendRoute` (route.cpp:406-468).  The `ASSERT`s (the 2 m merge-continuity
check, the destination-marker check, the street-bound check) are debug-only and do not
abort a release build; the `CHECK`s abort (`none`).  `Update()` only refreshes the
simplified-polyline cache and the tracking clock, both outside the model; `m_altitudes`
is left untouched by the source. -/
def Route.appendRoute (a : Route) (b : Route) : Option Route :=
  if ¬ b.isValid then some a
  else
    let estimatedTime : ℚ := if a.times.isEmpty then 0 else (a.times.getLastD (0, 0)).2
    if a.points.length ≠ 0 then
      if a.turns.isEmpty then none
      else if a.times.isEmpty then none
      else appendRouteCore a b a.points.dropLast a.turns.dropLast a.times.dropLast
        estimatedTime
    else appendRouteCore a b a.points a.turns a.times estimatedTime

/-- Success shape of the merge tail: the merged traffic computation succeeded, the final
size `CHECK` passed, and the result's fields are the loop outputs. -/
theorem appendRouteCore_some (a b : Route) (pts1 : List ℚ) (turns1 : List TurnItem)
    (times1 : List (ℕ × ℚ)) (estT : ℚ) (r2 : Route)
    (h : appendRouteCore a b pts1 turns1 times1 estT = some r2) :
    ∃ tr, appendTraffic a.traffic pts1 b = some tr ∧
      (¬ tr.isEmpty = true → tr.length + 1 = (pts1 ++ b.points).length) ∧
      r2 = { a with
        points := pts1 ++ b.points
        turns := appendTurnsLoop turns1 b.turns pts1.length
        streets := appendStreetsLoop a.streets b.streets pts1.length
        times := appendTimesLoop times1 b.times pts1.length estT
        traffic := tr } := by
  rw [appendRouteCore] at h
  simp only at h
  cases htr : appendTraffic a.traffic pts1 b with
  | none => rw [htr] at h; simp at h
  | some tr =>
    rw [htr] at h
    simp only at h
    split at h
    · simp at h
    · rename_i hcond
      refine ⟨tr, rfl, ?_, (Option.some.inj h).symm⟩
      intro hne
      by_contra hsz
      exact hcond ⟨by simpa using hne, by simpa using hsz⟩

/-- Success shape of `AppendRoute` for a valid continuation: the pop phase succeeded and
the core ran on the popped tables (or on the untouched tables when A's path is empty). -/
theorem appendRoute_some (a b : Route) (r2 : Route) (hb : b.isValid = true)
    (happ : a.appendRoute b = some r2) :
    (a.points.length ≠ 0 → a.turns ≠ [] ∧ a.times ≠ [] ∧
      appendRouteCore a b a.points.dropLast a.turns.dropLast a.times.dropLast
        (if a.times.isEmpty then 0 else (a.times.getLastD (0, 0)).2) = some r2) ∧
    (a.points.length = 0 →
      appendRouteCore a b a.points a.turns a.times
        (if a.times.isEmpty then 0 else (a.times.getLastD (0, 0)).2) = some r2) := by
  rw [Route.appendRoute, if_neg (by simp [hb])] at happ
  simp only at happ
  constructor
  · intro hap
    rw [if_pos hap] at happ
    by_cases hat : a.turns.isEmpty
    · rw [if_pos hat] at happ; simp at happ
    · rw [if_neg hat] at happ
      by_cases hatm : a.times.isEmpty
      · rw [if_pos hatm] at happ; simp at happ
      · rw [if_neg hatm] at happ
        exact ⟨by simpa using hat, by simpa using hatm, happ⟩
  · intro hap
    rw [if_neg (by omega)] at happ
    exact happ

/-- C2: every table entry taken from a valid continuation `B` is re-based by
`indexOffset` (A's vertex count after removing the synthetic last vertex), entries at
index 0 are dropped, and kept time entries are additionally shifted by A's last
cumulative time value read before the merge. -/
theorem C2_append_rebases_tables (a b r2 : Route) (hb : b.isValid = true)
    (happ : a.appendRoute b = some r2) :
    r2.turns = (if a.points.isEmpty then a.turns else a.turns.dropLast) ++
        (b.turns.filter (fun t => decide (t.m_index ≠ 0))).map
          (fun t => ⟨t.m_index + (if a.points.isEmpty then 0 else a.points.length - 1),
            t.m_turn⟩) ∧
    r2.streets = a.streets ++
        (b.streets.filter (fun s => decide (s.1 ≠ 0))).map
          (fun s => (s.1 + (if a.points.isEmpty then 0 else a.points.length - 1), s.2)) ∧
    r2.times = (if a.points.isEmpty then a.times else a.times.dropLast) ++
        (b.times.filter (fun t => decide (t.1 ≠ 0))).map
          (fun t => (t.1 + (if a.points.isEmpty then 0 else a.points.length - 1),
            t.2 + (if a.times.isEmpty then 0 else (a.times.getLastD (0, 0)).2))) := by
  have hshape := appendRoute_some a b r2 hb happ
  by_cases hap : a.points.length = 0
  · have hcore := hshape.2 hap
    obtain ⟨tr, _, _, hr2⟩ := appendRouteCore_some _ _ _ _ _ _ _ hcore
    have hpe : a.points.isEmpty = true := by
      cases hp : a.points with
      | nil => simp
      | cons x xs => rw [hp] at hap; simp at hap
    subst hr2
    refine ⟨?_, ?_, ?_⟩ <;>
      simp [appendTurnsLoop_eq, appendStreetsLoop_eq, appendTimesLoop_eq, hpe, hap]
  · obtain ⟨_, _, hcore⟩ := hshape.1 hap
    obtain ⟨tr, _, _, hr2⟩ := appendRouteCore_some _ _ _ _ _ _ _ hcore
    have hpe : a.points.isEmpty = false := by
      cases hp : a.points with
      | nil => rw [hp] at hap; simp at hap
      | cons x xs => simp
    have hlen : a.points.dropLast.length = a.points.length - 1 := by
      simp [List.length_dropLast]
    subst hr2
    refine ⟨?_, ?_, ?_⟩ <;>
      simp [appendTurnsLoop_eq, appendStreetsLoop_eq, appendTimesLoop_eq, hpe, hlen]

/-- Route A for the C2/C5/C7 witnesses: three vertices, tables terminated at the final
vertex. -/
def rA : Route :=
  { points := [0, 100, 200],
    turns := [⟨1, TurnDirection.TurnLeft⟩, ⟨2, TurnDirection.ReachedYourDestination⟩],
    times := [(1, 10), (2, 20)], streets := [(0, "A")], altitudes := [],
    traffic := [SpeedGroup.G3, SpeedGroup.G4], matchingThresholdM := 50,
    matchRoute := true }

/-- Route B for the C2/C5/C7 witnesses: a continuation starting at A's popped
endpoint. -/
def rB : Route :=
  { points := [200, 300, 400],
    turns := [⟨0, TurnDirection.GoStraight⟩, ⟨1, TurnDirection.TurnRight⟩,
      ⟨2, TurnDirection.ReachedYourDestination⟩],
    times := [(1, 7), (2, 15)], streets := [(0, "A"), (1, "B")], altitudes := [],
    traffic := [SpeedGroup.G1, SpeedGroup.G2], matchingThresholdM := 50,
    matchRoute := true }

/-- The merge of `rA` and `rB`, spelled out. -/
def rAB : Route :=
  { points := [0, 100, 200, 300, 400],
    turns := [⟨1, TurnDirection.TurnLeft⟩, ⟨3, TurnDirection.TurnRight⟩,
      ⟨4, TurnDirection.ReachedYourDestination⟩],
    times := [(1, 10), (3, 27), (4, 35)],
    streets := [(0, "A"), (3, "B")], altitudes := [],
    traffic := [SpeedGroup.G3, SpeedGroup.G4, SpeedGroup.G1, SpeedGroup.G2],
    matchingThresholdM := 50, matchRoute := true }

/-- Witness for C2: the concrete merge succeeds with exactly the claimed rebasing
(B's index-0 entries dropped, indices shifted by 2, times shifted by 20). -/
theorem C2_witness :
    rA.appendRoute rB = some rAB ∧
      rAB.turns = (if rA.points.isEmpty then rA.turns else rA.turns.dropLast) ++
        (rB.turns.filter (fun t => decide (t.m_index ≠ 0))).map
          (fun t => ⟨t.m_index + (if rA.points.isEmpty then 0 else rA.points.length - 1),
            t.m_turn⟩) :=
  ⟨by decide, (C2_append_rebases_tables rA rB rAB (by decide) (by decide)).1⟩
/-! ## Claim C7: the merged turn table -/

/-- C7: for valid routes A and B whose turn tables are strictly sorted and terminated by
the destination marker at their final vertices, and whose merge boundary satisfies the
2 m continuity precondition, a successful `AppendRoute` leaves the merged turn-table
indices strictly increasing with the destination marker at the merged final vertex. -/
theorem C7_merged_turns_invariant (a b r2 : Route)
    (ha : a.isValid = true) (hb : b.isValid = true)
    (hasort : a.turns.Pairwise (fun x y => x.m_index < y.m_index))
    (hbsort : b.turns.Pairwise (fun x y => x.m_index < y.m_index))
    (hane : a.turns ≠ []) (hbne : b.turns ≠ [])
    (halast : a.turns.getLast hane =
      ⟨a.points.length - 1, TurnDirection.ReachedYourDestination⟩)
    (hblast : b.turns.getLast hbne =
      ⟨b.points.length - 1, TurnDirection.ReachedYourDestination⟩)
    (hcont : distOnEarth (a.points.getLastD 0) (b.points.getD 0 0) < 2)
    (happ : a.appendRoute b = some r2) :
    r2.turns.Pairwise (fun x y => x.m_index < y.m_index) ∧
    r2.turns.getLast? =
      some ⟨r2.points.length - 1, TurnDirection.ReachedYourDestination⟩ := by
  have haptsnz : a.points.length ≠ 0 := by
    have : (1 : ℕ) < a.points.length := by simpa [Route.isValid, polyIsValid] using ha
    omega
  have hbptsge : 1 < b.points.length := by simpa [Route.isValid, polyIsValid] using hb
  obtain ⟨_, _, hcore⟩ := (appendRoute_some a b r2 hb happ).1 haptsnz
  obtain ⟨tr, _, _, hr2⟩ := appendRouteCore_some _ _ _ _ _ _ _ hcore
  have hoff : a.points.dropLast.length = a.points.length - 1 := by
    simp [List.length_dropLast]
  have hr2turns : r2.turns = a.turns.dropLast ++
      (b.turns.filter (fun t => decide (t.m_index ≠ 0))).map
        (fun t => ⟨t.m_index + (a.points.length - 1), t.m_turn⟩) := by
    rw [hr2]
    simp only [appendTurnsLoop_eq, hoff]
  have hr2pts : r2.points.length = (a.points.length - 1) + b.points.length := by
    rw [hr2]
    simp [List.length_dropLast]
  have hag := List.pairwise_iff_getElem.mp hasort
  rw [List.getLast_eq_getElem] at halast
  -- every element surviving A's pop lies strictly below the index offset
  have hdropbound : ∀ x ∈ a.turns.dropLast, x.m_index < a.points.length - 1 := by
    intro x hx
    obtain ⟨i, hi, rfl⟩ := List.mem_iff_getElem.mp hx
    rw [List.getElem_dropLast]
    have hilen : i < a.turns.length := by
      rw [List.length_dropLast] at hi
      omega
    have hlast : i < a.turns.length - 1 := by
      rw [List.length_dropLast] at hi
      omega
    have h2 := hag i (a.turns.length - 1) hilen (by omega) (by omega)
    rw [halast] at h2
    exact h2
  -- every re-based element from B lies strictly above the index offset
  have hmapped : ∀ y ∈ (b.turns.filter (fun t => decide (t.m_index ≠ 0))).map
      (fun t => TurnItem.mk (t.m_index + (a.points.length - 1)) t.m_turn),
      a.points.length - 1 < y.m_index := by
    intro y hy
    obtain ⟨t, ht, rfl⟩ := List.mem_map.mp hy
    have ht2 := List.of_mem_filter ht
    simp only [decide_eq_true_eq] at ht2
    simp only
    omega
  constructor
  · rw [hr2turns]
    rw [List.pairwise_append]
    refine ⟨hasort.sublist (List.dropLast_sublist a.turns), ?_, ?_⟩
    · rw [List.pairwise_map]
      apply List.Pairwise.imp ?_ (hbsort.filter (fun t => decide (t.m_index ≠ 0)))
      intro x y hxy
      simpa using hxy
    · intro x hx y hy
      exact lt_trans (hdropbound x hx) (hmapped y hy)
  · rw [hr2turns]
    have hbsplit : b.turns = b.turns.dropLast ++ [b.turns.getLast hbne] :=
      (List.dropLast_append_getLast hbne).symm
    have hkeep : (b.turns.getLast hbne).m_index ≠ 0 := by
      rw [hblast]
      simp only
      omega
    have hfilterlast : b.turns.filter (fun t => decide (t.m_index ≠ 0)) =
        b.turns.dropLast.filter (fun t => decide (t.m_index ≠ 0)) ++
          [b.turns.getLast hbne] := by
      conv_lhs => rw [hbsplit]
      rw [List.filter_append]
      congr 1
      simp [List.filter_cons, hkeep]
    rw [hfilterlast, List.map_append, ← List.append_assoc]
    simp only [List.map_cons, List.map_nil]
    rw [List.getLast?_concat, hblast, hr2pts]
    simp only [Option.some.injEq, TurnItem.mk.injEq]
    exact ⟨by omega, trivial⟩

/-- Witness for C7: the concrete merge of `rA` and `rB`. -/
theorem C7_witness :
    rAB.turns.Pairwise (fun x y => x.m_index < y.m_index) ∧
      rAB.turns.getLast? =
        some ⟨rAB.points.length - 1, TurnDirection.ReachedYourDestination⟩ :=
  C7_merged_turns_invariant rA rB rAB (by decide) (by decide) (by decide) (by decide)
    (by decide) (by decide) (by decide) (by decide) (by decide) (by decide)

/-! ## Claim C5: the traffic merge -/

theorem appendRoute_unfold_pos (a b : Route) (hb : b.isValid = true)
    (hap : a.points.length ≠ 0) (hat : a.turns ≠ []) (hatm : a.times ≠ []) :
    a.appendRoute b = appendRouteCore a b a.points.dropLast a.turns.dropLast
      a.times.dropLast (if a.times.isEmpty then 0 else (a.times.getLastD (0, 0)).2) := by
  rw [Route.appendRoute, if_neg (by simp [hb])]
  simp only
  rw [if_pos hap, if_neg (by simpa using hat), if_neg (by simpa using hatm)]

theorem appendRoute_unfold_zero (a b : Route) (hb : b.isValid = true)
    (hap : a.points.length = 0) :
    a.appendRoute b = appendRouteCore a b a.points a.turns a.times
      (if a.times.isEmpty then 0 else (a.times.getLastD (0, 0)).2) := by
  rw [Route.appendRoute, if_neg (by simp [hb])]
  simp only
  rw [if_neg (by omega)]

theorem appendRouteCore_succeeds (a b : Route) (pts1 : List ℚ) (turns1 : List TurnItem)
    (times1 : List (ℕ × ℚ)) (estT : ℚ) (tr : List SpeedGroup)
    (htr : appendTraffic a.traffic pts1 b = some tr)
    (hck : tr = [] ∨ tr.length + 1 = (pts1 ++ b.points).length) :
    appendRouteCore a b pts1 turns1 times1 estT = some { a with
      points := pts1 ++ b.points
      turns := appendTurnsLoop turns1 b.turns pts1.length
      streets := appendStreetsLoop a.streets b.streets pts1.length
      times := appendTimesLoop times1 b.times pts1.length estT
      traffic := tr } := by
  rw [appendRouteCore]
  simp only
  rw [htr]
  simp only
  rw [if_neg ?hc]
  case hc =>
    rcases hck with h | h
    · intro hcon
      rw [h] at hcon
      simp at hcon
    · intro hcon
      exact hcon.2 h

/-- The four merge cases of `AppendTraffic`, as reached from `AppendRoute` (A's polyline
already popped to `aPts`, `aTr` still A's original traffic). -/
theorem appendTraffic_cases (aTr : List SpeedGroup) (aPts : List ℚ) (b : Route)
    (hb : b.isValid = true) :
    (aTr = [] → b.traffic = [] → appendTraffic aTr aPts b = some aTr) ∧
    (¬ 1 < aPts.length → ¬ (aTr = [] ∧ b.traffic = []) →
      appendTraffic aTr aPts b = some b.traffic) ∧
    (1 < aPts.length → aTr = [] → b.traffic ≠ [] →
      appendTraffic aTr aPts b =
        some (List.replicate aPts.length SpeedGroup.Unknown ++ b.traffic)) ∧
    (1 < aPts.length → aTr ≠ [] → aTr.length = aPts.length → b.traffic = [] →
      appendTraffic aTr aPts b =
        some (aTr ++ List.replicate (b.points.length - 1) SpeedGroup.Unknown)) ∧
    (1 < aPts.length → aTr ≠ [] → aTr.length = aPts.length → b.traffic ≠ [] →
      appendTraffic aTr aPts b = some (aTr ++ b.traffic)) := by
  have hbpts : 1 < b.points.length := by simpa [Route.isValid, polyIsValid] using hb
  refine ⟨?_, ?_, ?_, ?_, ?_⟩
  · intro hA hB
    rw [appendTraffic, if_neg (by simp [hb]), if_pos (by simp [hA, hB])]
  · intro hlen hboth
    rw [appendTraffic, if_neg (by simp [hb]),
      if_neg (by simpa [List.isEmpty_iff] using hboth),
      if_pos (by simpa [polyIsValid] using hlen)]
  · intro hlen hA hB
    rw [appendTraffic, if_neg (by simp [hb]), if_neg (by simp [hB]),
      if_neg (by simp [polyIsValid, hlen])]
    simp only [hA, List.isEmpty_nil, if_pos rfl]
    rw [if_neg (by simp), if_neg (by simpa [List.isEmpty_iff] using hB)]
    simp
  · intro hlen hA hlen2 hB
    rw [appendTraffic, if_neg (by simp [hb]),
      if_neg (by simp [List.isEmpty_iff, hA]),
      if_neg (by simp [polyIsValid, hlen])]
    simp only [List.isEmpty_iff, if_neg hA]
    rw [if_neg (by simpa using hlen2), if_pos (by simpa [List.isEmpty_iff] using hB),
      if_neg (by omega)]
  · intro hlen hA hlen2 hB
    rw [appendTraffic, if_neg (by simp [hb]),
      if_neg (by simp [List.isEmpty_iff, hA]),
      if_neg (by simp [polyIsValid, hlen])]
    simp only [List.isEmpty_iff, if_neg hA]
    rw [if_neg (by simpa using hlen2), if_neg (by simpa [List.isEmpty_iff] using hB)]

/-- C5 (amended): the four traffic-merge cases and the size post-condition, for a valid
continuation B and a route A that is either empty or keeps a valid polyline after the
pop (at least three vertices), with traffic arrays respecting the per-edge invariant. -/
theorem C5_traffic_merge_amended (a b : Route) (hb : b.isValid = true)
    (hsz : a.points.length = 0 ∨ 3 ≤ a.points.length)
    (hpop : a.points.length ≠ 0 → a.turns ≠ [] ∧ a.times ≠ [])
    (hatr : a.traffic = [] ∨ a.traffic.length + 1 = a.points.length)
    (hbtr : b.traffic = [] ∨ b.traffic.length + 1 = b.points.length) :
    ∃ r2, a.appendRoute b = some r2 ∧
      (a.traffic = [] → b.traffic = [] → r2.traffic = []) ∧
      (a.traffic = [] → b.traffic ≠ [] →
        r2.traffic = List.replicate (a.points.length - 1) SpeedGroup.Unknown ++
          b.traffic) ∧
      (a.traffic ≠ [] → b.traffic = [] →
        r2.traffic = a.traffic ++ List.replicate (b.points.length - 1)
          SpeedGroup.Unknown) ∧
      (a.traffic ≠ [] → b.traffic ≠ [] → r2.traffic = a.traffic ++ b.traffic) ∧
      (r2.traffic ≠ [] → r2.traffic.length + 1 = r2.points.length) := by
  have hbpts : 1 < b.points.length := by simpa [Route.isValid, polyIsValid] using hb
  obtain ⟨hc1, hc2, hc3, hc4, hc5⟩ :=
    appendTraffic_cases a.traffic a.points.dropLast b hb
  obtain ⟨hc1z, hc2z, _, _, _⟩ := appendTraffic_cases a.traffic a.points b hb
  rcases hsz with hap | hap
  · -- A's path is empty: its traffic is forced empty by the per-edge invariant
    have hA : a.traffic = [] := by
      rcases hatr with h | h
      · exact h
      · omega
    have hunf := appendRoute_unfold_zero a b hb hap
    by_cases hB : b.traffic = []
    · have htr := hc1z hA hB
      have hsucc := appendRouteCore_succeeds a b a.points a.turns a.times
        (if a.times.isEmpty then 0 else (a.times.getLastD (0, 0)).2) a.traffic htr
        (Or.inl hA)
      rw [← hunf] at hsucc
      refine ⟨_, hsucc, ?_, ?_, ?_, ?_, ?_⟩ <;> simp [hA, hB]
    · have hblen : b.traffic.length + 1 = b.points.length := by
        rcases hbtr with h | h
        · exact absurd h hB
        · exact h
      have htr := hc2z (by omega) (by simp [hB])
      have hsucc := appendRouteCore_succeeds a b a.points a.turns a.times
        (if a.times.isEmpty then 0 else (a.times.getLastD (0, 0)).2) b.traffic htr
        (Or.inr (by simp [hap, hblen]))
      rw [← hunf] at hsucc
      refine ⟨_, hsucc, ?_, ?_, ?_, ?_, ?_⟩ <;> simp [hA, hB, hap] <;> omega
  · -- A keeps at least two vertices after the pop
    have hapnz : a.points.length ≠ 0 := by omega
    obtain ⟨hat, hatm⟩ := hpop hapnz
    have hunf := appendRoute_unfold_pos a b hb hapnz hat hatm
    have hoff : a.points.dropLast.length = a.points.length - 1 := by
      simp [List.length_dropLast]
    have hlen1 : 1 < a.points.dropLast.length := by omega
    by_cases hA : a.traffic = [] <;> by_cases hB : b.traffic = []
    · have htr := hc1 hA hB
      have hsucc := appendRouteCore_succeeds a b a.points.dropLast a.turns.dropLast
        a.times.dropLast (if a.times.isEmpty then 0 else (a.times.getLastD (0, 0)).2)
        a.traffic htr (Or.inl hA)
      rw [← hunf] at hsucc
      refine ⟨_, hsucc, ?_, ?_, ?_, ?_, ?_⟩ <;> simp [hA, hB]
    · have hblen : b.traffic.length + 1 = b.points.length := by
        rcases hbtr with h | h
        · exact absurd h hB
        · exact h
      have htr := hc3 hlen1 hA hB
      have hsucc := appendRouteCore_succeeds a b a.points.dropLast a.turns.dropLast
        a.times.dropLast (if a.times.isEmpty then 0 else (a.times.getLastD (0, 0)).2)
        (List.replicate a.points.dropLast.length SpeedGroup.Unknown ++ b.traffic) htr
        (Or.inr (by simp only [List.length_append, List.length_replicate]; omega))
      rw [← hunf] at hsucc
      refine ⟨_, hsucc, ?_, ?_, ?_, ?_, ?_⟩ <;>
        simp [hA, hB, hoff] <;> omega
    · have halen : a.traffic.length + 1 = a.points.length := by
        rcases hatr with h | h
        · exact absurd h hA
        · exact h
      have htr := hc4 hlen1 hA (by omega) hB
      have hsucc := appendRouteCore_succeeds a b a.points.dropLast a.turns.dropLast
        a.times.dropLast (if a.times.isEmpty then 0 else (a.times.getLastD (0, 0)).2)
        (a.traffic ++ List.replicate (b.points.length - 1) SpeedGroup.Unknown) htr
        (Or.inr (by simp only [List.length_append, List.length_replicate]; omega))
      rw [← hunf] at hsucc
      refine ⟨_, hsucc, ?_, ?_, ?_, ?_, ?_⟩ <;>
        simp [hA, hB, hoff] <;> omega
    · have halen : a.traffic.length + 1 = a.points.length := by
        rcases hatr with h | h
        · exact absurd h hA
        · exact h
      have hblen : b.traffic.length + 1 = b.points.length := by
        rcases hbtr with h | h
        · exact absurd h hB
        · exact h
      have htr := hc5 hlen1 hA (by omega) hB
      have hsucc := appendRouteCore_succeeds a b a.points.dropLast a.turns.dropLast
        a.times.dropLast (if a.times.isEmpty then 0 else (a.times.getLastD (0, 0)).2)
        (a.traffic ++ b.traffic) htr
        (Or.inr (by simp only [List.length_append]; omega))
      rw [← hunf] at hsucc
      refine ⟨_, hsucc, ?_, ?_, ?_, ?_, ?_⟩ <;>
        simp [hA, hB] <;> omega

/-- A two-vertex route A with known traffic on its only edge. -/
def rC5a : Route :=
  { points := [0, 100], turns := [⟨1, TurnDirection.ReachedYourDestination⟩],
    times := [(1, 10)], streets := [], altitudes := [], traffic := [SpeedGroup.G2],
    matchingThresholdM := 50, matchRoute := true }

/-- A continuation without traffic data. -/
def rC5b : Route :=
  { points := [100, 200, 300], turns := [⟨2, TurnDirection.ReachedYourDestination⟩],
    times := [(2, 20)], streets := [], altitudes := [], traffic := [],
    matchingThresholdM := 50, matchRoute := true }

/-- A continuation with traffic data. -/
def rC5c : Route :=
  { points := [100, 200, 300], turns := [⟨2, TurnDirection.ReachedYourDestination⟩],
    times := [(2, 20)], streets := [], altitudes := [], traffic := [SpeedGroup.G1,
    SpeedGroup.G0], matchingThresholdM := 50, matchRoute := true }

/-- C5 is false as stated: merging a two-vertex A (traffic [G2]) with a traffic-less
valid B silently *discards* A's traffic (the popped one-vertex polyline fails the
validity test inside `AppendTraffic`, which then overwrites `m_traffic` with B's empty
array) instead of padding one unknown entry per edge B contributes; and with a
traffic-carrying B the merged sizes can never match, so the final size `CHECK` aborts
the merge. -/
theorem C5_counterexample :
    (rC5a.appendRoute rC5b).map Route.traffic = some [] ∧
      rC5a.traffic ++ List.replicate (rC5b.points.length - 1) SpeedGroup.Unknown =
        [SpeedGroup.G2, SpeedGroup.Unknown, SpeedGroup.Unknown] ∧
      rC5a.appendRoute rC5c = none := by
  refine ⟨by decide, by decide, by decide⟩

/-- Witness for C5 (amended) at `rA`/`rB` (both carry traffic): direct concatenation,
with the merged array one shorter than the merged vertex count. -/
theorem C5_witness :
    (rA.appendRoute rB).map Route.traffic = some (rA.traffic ++ rB.traffic) ∧
      (rA.appendRoute rB).map (fun r => r.traffic.length + 1 = r.points.length) =
        some True := by
  obtain ⟨r2, happ, _, _, _, hboth, hsize⟩ := C5_traffic_merge_amended rA rB
    (by decide) (Or.inr (by decide)) (fun _ => ⟨by decide, by decide⟩)
    (Or.inr (by decide)) (Or.inr (by decide))
  rw [happ]
  have h4 := hboth (by decide) (by decide)
  constructor
  · simp [h4]
  · have h5 := hsize (by rw [h4]; decide)
    simp [h5]

/-! ## Claim C9: GPS-fix matching (`MatchLocationToRoute`) -/

/-- Modelled from the spec: geographic/planar conversion is an external collaborator
(spec section 1 excludes it); in the 1-D planar model the fix's planar position is keyed
on its longitude and the inverse conversions are the identity on the single
coordinate. -/
def mercFromLatLon (lat lon : ℚ) : ℚ := lon

/-- `MercatorBounds::YToLat` in the 1-D model. -/
def mercYToLat (p : ℚ) : ℚ := p

/-- `MercatorBounds::XToLon` in the 1-D model. -/
def mercXToLon (p : ℚ) : ℚ := p

/-- `my::RadToDeg`: an external scalar conversion no claim depends on; the identity in
the model. -/
def radToDeg (x : ℚ) : ℚ := x

/-- `location::AngleToBearing`: external, modeled as the identity. -/
def angleToBearing (a : ℚ) : ℚ := a

/-- `ang::AngleTo` in the 1-D model: the signed direction from `p1` to `p2`. -/
def angleTo (p1 p2 : ℚ) : ℚ := p2 - p1

/-- The duplicate-skipping do-while scan of `Route::GetPolySegAngle`
(route.cpp:317-322) over the point-list suffix starting at `ind + 1`; an exhausted
suffix is the `i == polySz` return of 0. -/
def segAngleAux (p1 : ℚ) : List ℚ → ℚ
  | [] => 0
  | p2 :: rest =>
    if p1 = p2 then
      match rest with
      | [] => 0
      | _ :: _ => segAngleAux p1 rest
    else radToDeg (angleTo p1 p2)

/-- `Route::GetPolySegAngle` (route.cpp:304-323); the out-of-range `ASSERT` is
debug-only (the function returns 0 there). -/
def Route.getPolySegAngle (r : Route) (ind : ℕ) : ℚ :=
  if ind + 1 ≥ r.points.length then 0
  else segAngleAux (r.points.getD ind 0) (r.points.drop (ind + 1))

/-- `location::GpsInfo`: the fields `MatchLocationToRoute` reads or writes. -/
structure GpsInfo where
  m_latitude : ℚ
  m_longitude : ℚ
  m_bearing : ℚ
deriving DecidableEq, Repr

/-- One record emitted to the diagnostics sink `location::RouteMatchingInfo`:
(snapped point, vertex index, mercator distance from the route start). -/
structure MatchingRec where
  pt : ℚ
  ind : ℕ
  distFromBegin : ℚ
deriving DecidableEq, Repr

/-- `Route::MatchLocationToRoute` (route.cpp:325-342).  The method is `const` on the
route; the model renders that by returning the route state alongside the (possibly)
rewritten fix and the optional diagnostics record (`GetMercatorDistanceFromBegin` is
the cursor's arc position in the 1-D model). -/
def Route.matchLocationToRoute (r : Route) (c : Iter) (loc : GpsInfo) :
    Route × GpsInfo × Option MatchingRec :=
  if polyIsValid r.points then
    if distOnEarth c.m_pt (mercFromLatLon loc.m_latitude loc.m_longitude) <
        r.matchingThresholdM then
      (r,
        if r.matchRoute then
          { loc with
            m_latitude := mercYToLat c.m_pt
            m_longitude := mercXToLon c.m_pt
            m_bearing := angleToBearing (r.getPolySegAngle c.m_ind) }
        else
          { loc with
            m_latitude := mercYToLat c.m_pt
            m_longitude := mercXToLon c.m_pt },
        some ⟨c.m_pt, c.m_ind, iterPos r.points c⟩)
    else (r, loc, none)
  else (r, loc, none)

/-- C9: when the polyline is invalid, or the fix lies at or beyond the matching
threshold from the projected cursor point, the fix's latitude, longitude and bearing
are left untouched and nothing is emitted to the diagnostics sink; and in every case
the route state itself is unmodified. -/
theorem C9_match_location_frame (r : Route) (c : Iter) (loc : GpsInfo) :
    (r.matchLocationToRoute c loc).1 = r ∧
    ((polyIsValid r.points = false ∨
        r.matchingThresholdM ≤
          distOnEarth c.m_pt (mercFromLatLon loc.m_latitude loc.m_longitude)) →
      r.matchLocationToRoute c loc = (r, loc, none)) := by
  constructor
  · rw [Route.matchLocationToRoute]
    by_cases hv : polyIsValid r.points
    · rw [if_pos hv]
      by_cases hd : distOnEarth c.m_pt (mercFromLatLon loc.m_latitude loc.m_longitude) <
          r.matchingThresholdM
      · rw [if_pos hd]
      · rw [if_neg hd]
    · rw [if_neg hv]
  · intro h
    rw [Route.matchLocationToRoute]
    by_cases hv : polyIsValid r.points
    · rw [if_pos hv]
      rcases h with h | h
      · rw [hv] at h
        exact absurd h (by simp)
      · rw [if_neg (not_lt.mpr h)]
    · rw [if_neg hv]

/-- Route for the C9 witness. -/
def rC9 : Route :=
  { points := [0, 100, 200], turns := [], times := [], streets := [], altitudes := [],
    traffic := [], matchingThresholdM := 50, matchRoute := true }

/-- A fix 400 m away from the cursor point (beyond the 50 m threshold). -/
def locFar : GpsInfo := ⟨10, 500, 7⟩

/-- Witness for C9: at a valid polyline with a far-away fix, nothing changes and
nothing is emitted. -/
theorem C9_witness :
    (rC9.matchLocationToRoute ⟨100, 1⟩ locFar).1 = rC9 ∧
      rC9.matchLocationToRoute ⟨100, 1⟩ locFar = (rC9, locFar, none) :=
  ⟨(C9_match_location_frame rC9 ⟨100, 1⟩ locFar).1,
    (C9_match_location_frame rC9 ⟨100, 1⟩ locFar).2 (Or.inr (by decide))⟩

/-! ## Claim C8: remaining-time monotonicity -/

/-- The code's `distRemain` is the arc length from the cursor to the target vertex. -/
theorem remQ_eq (pts : List ℚ) (c : Iter) (τ : ℕ) :
    distFn pts c.m_ind τ - distOnEarth c.m_pt (pts.getD c.m_ind 0) =
      cumTo pts τ - iterPos pts c := by
  unfold distFn iterPos iterOff
  ring

/-- Bounds for one interpolation branch: with a nonnegative segment time `tk - tp`, a
cursor before the target vertex `τ` and at or after the previous checkpoint `pidx`, the
branch value lies in `[T - tk, T - tp]`. -/
theorem timeBranchBounds (T tk tp : ℚ) (pts : List ℚ) (c : Iter) (τ pidx : ℕ)
    (htp : tp ≤ tk) (hτ : c.m_ind < τ) (hpc : cumTo pts pidx ≤ iterPos pts c)
    (hpτ : pidx ≤ τ) (hv : IterValid pts c) :
    T - tk ≤ (if distFn pts pidx τ ≠ 0 then
        (T - tk) + (tk - tp) *
          ((distFn pts c.m_ind τ - distOnEarth c.m_pt (pts.getD c.m_ind 0)) /
            distFn pts pidx τ)
      else (T - tk)) ∧
    (if distFn pts pidx τ ≠ 0 then
        (T - tk) + (tk - tp) *
          ((distFn pts c.m_ind τ - distOnEarth c.m_pt (pts.getD c.m_ind 0)) /
            distFn pts pidx τ)
      else (T - tk)) ≤ T - tp := by
  have hrem : 0 ≤ cumTo pts τ - iterPos pts c :=
    sub_nonneg.mpr (iterPos_le_cumTo pts c hv hτ)
  have hdnn : 0 ≤ distFn pts pidx τ := sub_nonneg.mpr (cumTo_mono pts hpτ)
  have hrd : cumTo pts τ - iterPos pts c ≤ distFn pts pidx τ := by
    unfold distFn
    linarith
  rw [remQ_eq]
  by_cases hd : distFn pts pidx τ ≠ 0
  · simp only [if_pos hd]
    have hdpos : 0 < distFn pts pidx τ := lt_of_le_of_ne hdnn (Ne.symm hd)
    have hq0 : 0 ≤ (cumTo pts τ - iterPos pts c) / distFn pts pidx τ :=
      div_nonneg hrem hdnn
    have hq1 : (cumTo pts τ - iterPos pts c) / distFn pts pidx τ ≤ 1 :=
      (div_le_one hdpos).mpr hrd
    have htnn : (0 : ℚ) ≤ tk - tp := by linarith
    have h1 : 0 ≤ (tk - tp) * ((cumTo pts τ - iterPos pts c) / distFn pts pidx τ) :=
      mul_nonneg htnn hq0
    have h2 : (tk - tp) * ((cumTo pts τ - iterPos pts c) / distFn pts pidx τ) ≤
        (tk - tp) * 1 := mul_le_mul_of_nonneg_left hq1 htnn
    constructor <;> linarith
  · simp only [if_neg hd]
    exact ⟨le_refl _, by linarith⟩

/-- Monotonicity of one interpolation branch in the cursor's arc position. -/
theorem timeBranchMono (T tk tp : ℚ) (pts : List ℚ) (c1 c2 : Iter) (τ pidx : ℕ)
    (htp : tp ≤ tk) (hpτ : pidx ≤ τ)
    (hpos : iterPos pts c1 ≤ iterPos pts c2) :
    (if distFn pts pidx τ ≠ 0 then
        (T - tk) + (tk - tp) *
          ((distFn pts c2.m_ind τ - distOnEarth c2.m_pt (pts.getD c2.m_ind 0)) /
            distFn pts pidx τ)
      else (T - tk)) ≤
    (if distFn pts pidx τ ≠ 0 then
        (T - tk) + (tk - tp) *
          ((distFn pts c1.m_ind τ - distOnEarth c1.m_pt (pts.getD c1.m_ind 0)) /
            distFn pts pidx τ)
      else (T - tk)) := by
  have hdnn : 0 ≤ distFn pts pidx τ := sub_nonneg.mpr (cumTo_mono pts hpτ)
  rw [remQ_eq, remQ_eq]
  by_cases hd : distFn pts pidx τ ≠ 0
  · simp only [if_pos hd]
    have hdpos : 0 < distFn pts pidx τ := lt_of_le_of_ne hdnn (Ne.symm hd)
    have hq : (cumTo pts τ - iterPos pts c2) / distFn pts pidx τ ≤
        (cumTo pts τ - iterPos pts c1) / distFn pts pidx τ :=
      (div_le_div_right hdpos).mpr (by linarith)
    have h2 := mul_le_mul_of_nonneg_left hq (by linarith : (0 : ℚ) ≤ tk - tp)
    linarith
  · simp only [if_neg hd]
    exact le_refl _

/-- `timeToTargetQ` written as a single branch expression (its two `let`s inlined). -/
theorem timeToTargetQ_eq (r : Route) (c : Iter) (k : ℕ) :
    r.timeToTargetQ c k =
      (if distFn r.points (if 0 < k then (r.times.getD (k - 1) (0, 0)).1 else 0)
          (r.times.getD k (0, 0)).1 ≠ 0 then
        ((r.getTotalTimeSec : ℚ) - (r.times.getD k (0, 0)).2) +
          ((r.times.getD k (0, 0)).2 -
              (if 0 < k then (r.times.getD (k - 1) (0, 0)).2 else 0)) *
            ((distFn r.points c.m_ind (r.times.getD k (0, 0)).1 -
                distOnEarth c.m_pt (r.points.getD c.m_ind 0)) /
              distFn r.points (if 0 < k then (r.times.getD (k - 1) (0, 0)).1 else 0)
                (r.times.getD k (0, 0)).1)
      else ((r.getTotalTimeSec : ℚ) - (r.times.getD k (0, 0)).2)) := rfl

/-- The cursor index lies strictly below the found target's index and at or above every
earlier checkpoint's index. -/
theorem findIdx_target_facts (r : Route) (c : Iter) (k : ℕ)
    (hk : r.times.findIdx (fun item => decide (c.m_ind < item.1)) = k)
    (hklt : k < r.times.length) :
    c.m_ind < (r.times.getD k (0, 0)).1 ∧
    (∀ j, j < k → (r.times.getD j (0, 0)).1 ≤ c.m_ind) := by
  constructor
  · subst hk
    exact target_index_gt r c hklt
  · intro j hj
    have hjlen : j < r.times.length := lt_trans hj hklt
    have h := @List.not_of_lt_findIdx _ (fun item => decide (c.m_ind < item.1))
      r.times j (by omega)
    rw [List.getD_eq_getElem r.times (0, 0) hjlen]
    simpa using h

/-- Interval bounds on `timeToTargetQ` under the time-table invariants. -/
theorem timeToTargetQ_bounds (r : Route) (c : Iter) (k : ℕ)
    (hsorted : r.times.Pairwise (fun x y => x.1 < y.1))
    (hvals : r.times.Pairwise (fun x y => x.2 ≤ y.2))
    (hnn : ∀ t ∈ r.times, (0 : ℚ) ≤ t.2)
    (hv : IterValid r.points c)
    (hk : r.times.findIdx (fun item => decide (c.m_ind < item.1)) = k)
    (hklt : k < r.times.length) :
    (r.getTotalTimeSec : ℚ) - (r.times.getD k (0, 0)).2 ≤ r.timeToTargetQ c k ∧
    r.timeToTargetQ c k ≤ (r.getTotalTimeSec : ℚ) -
      (if 0 < k then (r.times.getD (k - 1) (0, 0)).2 else 0) := by
  obtain ⟨hτ, hprev⟩ := findIdx_target_facts r c k hk hklt
  have hmemk : r.times.getD k (0, 0) ∈ r.times := by
    rw [List.getD_eq_getElem r.times (0, 0) hklt]
    exact List.getElem_mem hklt
  rw [timeToTargetQ_eq]
  by_cases hk0 : 0 < k
  · have hkm1 : k - 1 < r.times.length := by omega
    have hps := List.pairwise_iff_getElem.mp hsorted (k - 1) k hkm1 hklt (by omega)
    have hpv := List.pairwise_iff_getElem.mp hvals (k - 1) k hkm1 hklt (by omega)
    simp only [if_pos hk0]
    have hgd1 : r.times.getD (k - 1) (0, 0) = r.times[k - 1] :=
      List.getD_eq_getElem r.times (0, 0) hkm1
    have hgd2 : r.times.getD k (0, 0) = r.times[k] :=
      List.getD_eq_getElem r.times (0, 0) hklt
    apply timeBranchBounds
    · rw [hgd1, hgd2]
      exact hpv
    · exact hτ
    · have hle : (r.times.getD (k - 1) (0, 0)).1 ≤ c.m_ind := hprev (k - 1) (by omega)
      calc cumTo r.points (r.times.getD (k - 1) (0, 0)).1
          ≤ cumTo r.points c.m_ind := cumTo_mono r.points hle
        _ ≤ iterPos r.points c := le_add_of_nonneg_right (iterOff_nonneg r.points c)
    · rw [hgd1, hgd2]
      exact le_of_lt hps
    · exact hv
  · simp only [if_neg hk0]
    apply timeBranchBounds
    · exact hnn _ hmemk
    · exact hτ
    · simpa [cumTo] using iterPos_nonneg r.points c
    · exact Nat.zero_le _
    · exact hv

/-- Same-target monotonicity of `timeToTargetQ` in the cursor's arc position. -/
theorem timeToTargetQ_mono (r : Route) (c1 c2 : Iter) (k : ℕ)
    (hsorted : r.times.Pairwise (fun x y => x.1 < y.1))
    (hvals : r.times.Pairwise (fun x y => x.2 ≤ y.2))
    (hnn : ∀ t ∈ r.times, (0 : ℚ) ≤ t.2)
    (hklt : k < r.times.length)
    (hpos : iterPos r.points c1 ≤ iterPos r.points c2) :
    r.timeToTargetQ c2 k ≤ r.timeToTargetQ c1 k := by
  have hmemk : r.times.getD k (0, 0) ∈ r.times := by
    rw [List.getD_eq_getElem r.times (0, 0) hklt]
    exact List.getElem_mem hklt
  rw [timeToTargetQ_eq, timeToTargetQ_eq]
  by_cases hk0 : 0 < k
  · have hkm1 : k - 1 < r.times.length := by omega
    have hps := List.pairwise_iff_getElem.mp hsorted (k - 1) k hkm1 hklt (by omega)
    have hpv := List.pairwise_iff_getElem.mp hvals (k - 1) k hkm1 hklt (by omega)
    have hgd1 : r.times.getD (k - 1) (0, 0) = r.times[k - 1] :=
      List.getD_eq_getElem r.times (0, 0) hkm1
    have hgd2 : r.times.getD k (0, 0) = r.times[k] :=
      List.getD_eq_getElem r.times (0, 0) hklt
    simp only [if_pos hk0]
    apply timeBranchMono
    · rw [hgd1, hgd2]
      exact hpv
    · rw [hgd1, hgd2]
      exact le_of_lt hps
    · exact hpos
  · simp only [if_neg hk0]
    apply timeBranchMono
    · exact hnn _ hmemk
    · exact Nat.zero_le _
    · exact hpos

/-- C8 (amended): for a fixed route whose time table satisfies the data-model
invariants (indices strictly increasing, cumulative values nondecreasing and
nonnegative), the remaining time to destination is non-increasing as the projector
cursor advances forward, i.e. for valid cursor states ordered both by arc length and by
vertex index (as the projector's forward advance produces). -/
theorem C8_remaining_time_monotone (r : Route) (c1 c2 : Iter)
    (hsorted : r.times.Pairwise (fun x y => x.1 < y.1))
    (hvals : r.times.Pairwise (fun x y => x.2 ≤ y.2))
    (hnn : ∀ t ∈ r.times, (0 : ℚ) ≤ t.2)
    (hv1 : IterValid r.points c1) (hv2 : IterValid r.points c2)
    (hpos : iterPos r.points c1 ≤ iterPos r.points c2)
    (hind : c1.m_ind ≤ c2.m_ind) :
    r.getCurrentTimeToEndSec c2 ≤ r.getCurrentTimeToEndSec c1 := by
  rw [Route.getCurrentTimeToEndSec, Route.getCurrentTimeToEndSec]
  by_cases hg : r.times.isEmpty = true ∨ r.points.length = 0
  · rw [if_pos hg, if_pos hg]
  · rw [if_neg hg, if_neg hg]
    simp only [upperBoundIdx]
    set k1 := r.times.findIdx (fun item => decide (c1.m_ind < item.1)) with hk1
    set k2 := r.times.findIdx (fun item => decide (c2.m_ind < item.1)) with hk2
    have hk12 : k1 ≤ k2 := by
      rw [hk1, hk2]
      apply findIdx_mono_pred
      intro a ha
      simp only [decide_eq_true_eq] at ha ⊢
      omega
    by_cases hlt2 : k2 < r.times.length
    · have hlt1 : k1 < r.times.length := lt_of_le_of_lt hk12 hlt2
      rw [if_pos hlt1, if_pos hlt2]
      apply truncToNat_mono
      rcases Nat.lt_or_ge k1 k2 with hkk | hkk
      · -- the cursor has crossed at least one checkpoint
        have hb2 := (timeToTargetQ_bounds r c2 k2 hsorted hvals hnn hv2
          hk2.symm hlt2).2
        have hb1 := (timeToTargetQ_bounds r c1 k1 hsorted hvals hnn hv1
          hk1.symm hlt1).1
        have hk2pos : 0 < k2 := by omega
        rw [if_pos hk2pos] at hb2
        have hmid : (r.times.getD k1 (0, 0)).2 ≤ (r.times.getD (k2 - 1) (0, 0)).2 := by
          have hk2m1 : k2 - 1 < r.times.length := by omega
          rcases Nat.lt_or_ge k1 (k2 - 1) with hc | hc
          · rw [List.getD_eq_getElem r.times (0, 0) hlt1,
              List.getD_eq_getElem r.times (0, 0) hk2m1]
            exact List.pairwise_iff_getElem.mp hvals k1 (k2 - 1) hlt1 hk2m1 hc
          · have hke : k1 = k2 - 1 := by omega
            rw [hke]
        linarith
      · have hke : k1 = k2 := le_antisymm hk12 hkk
        rw [← hke]
        exact timeToTargetQ_mono r c1 c2 k1 hsorted hvals hnn hlt1 hpos
    · rw [if_neg hlt2]
      exact Nat.zero_le _

/-- A route with a zero-length final edge (vertices 0, 1, 1) and two time checkpoints;
two valid cursors can occupy the same arc-length position with different vertex
indices. -/
def rC8 : Route :=
  { points := [0, 1, 1], turns := [], times := [(1, 10), (2, 20)],
    streets := [], altitudes := [], traffic := [], matchingThresholdM := 50,
    matchRoute := true }

/-- C8 is false as stated: on `rC8` the cursors (1, 1) and (1, 0) are both valid and
sit at the same arc length (so the first is <= the second in arc length), yet the
remaining time at the second (10 s) exceeds the remaining time at the first (0 s):
remaining time is not a function of arc length alone, because the target checkpoint
is selected by vertex index. -/
theorem C8_arc_length_counterexample :
    IterValid rC8.points ⟨1, 1⟩ ∧ IterValid rC8.points ⟨1, 0⟩ ∧
      iterPos rC8.points ⟨1, 1⟩ ≤ iterPos rC8.points ⟨1, 0⟩ ∧
      ¬(rC8.getCurrentTimeToEndSec ⟨1, 0⟩ ≤ rC8.getCurrentTimeToEndSec ⟨1, 1⟩) := by
  refine ⟨by decide, by decide, by decide, by decide⟩

/-- Witness route for the amended C8 theorem: 5 collinear points 100 m apart with
two time checkpoints, cursors mid-segment on segments 1 and 2. -/
def rC8w : Route :=
  { points := [0, 100, 200, 300, 400], turns := [], times := [(2, 10), (4, 40)],
    streets := [], altitudes := [], traffic := [], matchingThresholdM := 50,
    matchRoute := true }

/-- Witness: the amended C8 monotonicity theorem applied at a concrete route and a
concrete pair of forward-ordered cursors. -/
theorem C8_witness :
    rC8w.getCurrentTimeToEndSec ⟨250, 2⟩ ≤ rC8w.getCurrentTimeToEndSec ⟨150, 1⟩ :=
  C8_remaining_time_monotone rC8w ⟨150, 1⟩ ⟨250, 2⟩ (by decide) (by decide)
    (by decide) (by decide) (by decide) (by decide) (by decide)

/-! ## Claim C6: `GetSubrouteInfo` segment export -/

/-- `feature::kInvalidAltitude`.  Modelled from the spec: the sentinel altitude written
into segment records when the route carries no altitude data. -/
def kInvalidAltitude : ℤ := -32768

/-- `Route::SegmentInfo` restricted to the fields the constructor call in
`GetSubrouteInfo` fills from route state (the default-constructed `Segment` and the
empty street string are constants and are omitted). -/
structure SegmentInfo where
  turn : TurnItem
  junctionPt : ℚ
  altitude : ℤ
  distFromBeginningMeters : ℚ
  distFromBeginningMerc : ℚ
  timeFromBeginningS : ℚ
  traffic : SpeedGroup
deriving DecidableEq, Repr

/-- Placeholder record used only as the default of `List.getD` reads in statements. -/
def segInfoDefault : SegmentInfo :=
  ⟨TurnItem.mk0, 0, kInvalidAltitude, 0, 0, 0, SpeedGroup.Unknown⟩

/-- `std::is_sorted` over a `ℕ` projection with the strict `<` comparator: it accepts
weakly increasing sequences (equal adjacent keys pass). -/
def adjWeakSortedNat {α : Type _} (f : α → ℕ) : List α → Bool
  | [] => true
  | [_] => true
  | a :: b :: rest => decide (f a ≤ f b) && adjWeakSortedNat f (b :: rest)

/-- The mutable state of the `GetSubrouteInfo` loop. -/
structure SubState where
  turnItemIdx : ℕ
  timeIdx : ℕ
  distM : ℚ
  distMerc : ℚ
  acc : List SegmentInfo
deriving DecidableEq, Repr

/-- One iteration (index `i`) of the `GetSubrouteInfo` loop body.  Every vector read is
bounds-checked here because the C++ `operator[]` reads are unchecked: an out-of-bounds
read -- including `m_times[timeIdx - 1]` after the `size_t` underflow `timeIdx - 1`
when `timeIdx = 0` -- is modelled as failure (`none`).  The
`CHECK_LESS_OR_EQUAL(turnItemIdx, m_turns.size())` always holds after a successful
read and is dropped. -/
def getSubrouteInfoStep (r : Route) (i : ℕ) (st : SubState) : Option SubState :=
  match r.turns[st.turnItemIdx]? with
  | none => none
  | some tEntry =>
    let turn := if tEntry.m_index = i then tEntry else TurnItem.mk0
    let turnItemIdx1 := if tEntry.m_index = i then st.turnItemIdx + 1 else st.turnItemIdx
    match r.times[st.timeIdx]? with
    | none => none
    | some tmEntry =>
      let timeIdx1 := if tmEntry.1 = i then st.timeIdx + 1 else st.timeIdx
      if timeIdx1 = 0 then none
      else
        match r.times[timeIdx1 - 1]? with
        | none => none
        | some tmPrev =>
          let dM := st.distM + distOnEarth (r.points.getD (i - 1) 0) (r.points.getD i 0)
          let dMerc := st.distMerc + distOnEarth (r.points.getD (i - 1) 0) (r.points.getD i 0)
          let seg : SegmentInfo :=
            { turn := turn
              junctionPt := r.points.getD i 0
              altitude := if r.altitudes.isEmpty then kInvalidAltitude
                else r.altitudes.getD i 0
              distFromBeginningMeters := dM
              distFromBeginningMerc := dMerc
              timeFromBeginningS := tmPrev.2
              traffic := if r.traffic.isEmpty then SpeedGroup.Unknown
                else r.traffic.getD (i - 1) SpeedGroup.Unknown }
          some { turnItemIdx := turnItemIdx1
                 timeIdx := timeIdx1
                 distM := dM
                 distMerc := dMerc
                 acc := st.acc ++ [seg] }

/-- The `GetSubrouteInfo` loop with `n` iterations remaining; with `n` remaining the
body runs at `i = r.points.length - n`, so starting at `n = length - 1` runs
`i = 1, ..., length - 1` in order. -/
def getSubrouteInfoLoop (r : Route) : ℕ → SubState → Option SubState
  | 0, st => some st
  | n + 1, st =>
    match getSubrouteInfoStep r (r.points.length - (n + 1)) st with
    | none => none
    | some st1 => getSubrouteInfoLoop r n st1

/-- The `CHECK` prologue of `Route::GetSubrouteInfo` (including
`CHECK_LESS(segmentIdx, GetSubrouteCount())` at `segmentIdx = 0`, which is
`IsValid()`) as one boolean conjunction. -/
def subrouteChecks (r : Route) : Bool :=
  r.isValid &&
  !r.turns.isEmpty &&
  decide ((r.turns.getLastD TurnItem.mk0).m_index < r.points.length) &&
  adjWeakSortedNat (fun t => t.m_index) r.turns &&
  (r.altitudes.isEmpty || decide (r.altitudes.length = r.points.length)) &&
  !r.times.isEmpty &&
  decide ((r.times.getLastD (0, 0)).1 < r.points.length) &&
  adjWeakSortedNat (fun t => t.1) r.times &&
  (r.traffic.isEmpty || decide (r.traffic.length + 1 = r.points.length))

/-- `Route::GetSubrouteInfo` at `segmentIdx = 0`: the `CHECK` prologue, the two skip
initialisers, and the edge loop.  `CHECK` failure or an out-of-bounds read is `none`. -/
def Route.getSubrouteInfo (r : Route) : Option (List SegmentInfo) :=
  if subrouteChecks r then
    match getSubrouteInfoLoop r (r.points.length - 1)
        ⟨(if (r.turns.getD 0 TurnItem.mk0).m_index = 0 then 1 else 0),
          (if (r.times.getD 0 (0, 0)).1 ≠ 0 then 1 else 0), 0, 0, []⟩ with
    | none => none
    | some st => some st.acc
  else none

/-- The time value the loop actually writes for edge `k` (in checkpoint-table terms):
the value of the last time entry with index at or before `k` when one exists, and
otherwise the FIRST entry's value (edges before the first checkpoint are back-filled
with the first checkpoint's cumulative time, not with a carried-forward earlier
value). -/
def recTimeSpec (r : Route) (k : ℕ) : ℚ :=
  match (r.times.filter (fun t => decide (t.1 ≤ k))).getLast? with
  | some t => t.2
  | none => (r.times.getD 0 (0, 0)).2

/-- Counterexample route (a): first time-table entry at vertex 0.  Then
`timeIdx = (m_times[0].first ? 1 : 0)` starts at 0 and the first iteration reads
`m_times[timeIdx - 1]` with the `size_t` underflow `0 - 1`. -/
def rC6a : Route :=
  { points := [0, 100, 200],
    turns := [⟨2, TurnDirection.ReachedYourDestination⟩],
    times := [(0, 0), (2, 20)], streets := [], altitudes := [], traffic := [],
    matchingThresholdM := 50, matchRoute := true }

/-- Counterexample route (b): a single-entry time table (entry not at vertex 0).
`timeIdx` starts at 1, which is already past the end, and the first iteration reads
`m_times[1]` out of bounds. -/
def rC6b : Route :=
  { points := [0, 100, 200],
    turns := [⟨2, TurnDirection.ReachedYourDestination⟩],
    times := [(2, 20)], streets := [], altitudes := [], traffic := [],
    matchingThresholdM := 50, matchRoute := true }

/-- Counterexample route (c): the time table passes every `CHECK` but its last entry
sits at vertex 2 < 3 = final vertex, so `timeIdx` walks past the end before the loop
finishes. -/
def rC6d : Route :=
  { points := [0, 100, 200, 300],
    turns := [⟨3, TurnDirection.ReachedYourDestination⟩],
    times := [(1, 10), (2, 20)], streets := [], altitudes := [], traffic := [],
    matchingThresholdM := 50, matchRoute := true }

/-- Counterexample route (d): first time checkpoint at vertex 2; the export succeeds
but edge 1 precedes every checkpoint. -/
def rC6c : Route :=
  { points := [0, 100, 200, 300],
    turns := [⟨3, TurnDirection.ReachedYourDestination⟩],
    times := [(2, 10), (3, 30)], streets := [], altitudes := [], traffic := [],
    matchingThresholdM := 50, matchRoute := true }

/-- C6 is false as stated.  Three routes whose tables satisfy every `CHECK` in
`GetSubrouteInfo` make the export read out of bounds instead of producing N - 1
records: a first time entry at vertex 0 (`size_t` underflow in `timeIdx - 1`), a
single-entry time table, and a time table whose last entry precedes the final vertex.
And on a route whose export does succeed (`rC6c`), the record of edge 1 carries the
FIRST checkpoint's cumulative time 10, while the claimed rule -- the most recent
checkpoint value at or before edge 1, carried forward -- yields nothing before the
first checkpoint (value 0 under the natural empty default). -/
theorem C6_counterexample :
    rC6a.getSubrouteInfo = none ∧
    rC6b.getSubrouteInfo = none ∧
    rC6d.getSubrouteInfo = none ∧
    (rC6c.getSubrouteInfo.map
        (fun recs => (recs.getD 0 segInfoDefault).timeFromBeginningS)) = some 10 ∧
    ((rC6c.times.filter (fun t => decide (t.1 ≤ 1))).getLastD (0, 0)).2 = 0 := by
  refine ⟨by decide, by decide, by decide, by decide, by decide⟩

/-- `getLastD` of a non-empty list is its last element by position. -/
theorem getLastD_eq_getD_last {α : Type _} (l : List α) (d : α) (h : 0 < l.length) :
    l.getLastD d = l.getD (l.length - 1) d := by
  rw [List.getLastD_eq_getLast?, List.getLast?_eq_getElem?,
    List.getElem?_eq_getElem (by omega), List.getD_eq_getElem l d (by omega)]
  rfl

/-- A strictly increasing key sequence passes the `std::is_sorted` check. -/
theorem adjWeakSortedNat_of_pairwise {α : Type _} (f : α → ℕ) (l : List α)
    (h : l.Pairwise (fun x y => f x < f y)) : adjWeakSortedNat f l = true := by
  induction l with
  | nil => rfl
  | cons a t ih =>
    cases t with
    | nil => rfl
    | cons b u =>
      have hab : f a < f b := (List.pairwise_cons.mp h).1 b (by simp)
      have ht := ih (List.pairwise_cons.mp h).2
      show (decide (f a ≤ f b) && adjWeakSortedNat f (b :: u)) = true
      rw [ht]
      simp
      omega

/-- On a strictly key-sorted list the elements with key at most `i` form the prefix up
to the first element with key above `i`. -/
theorem filter_le_eq_take_findIdx {α : Type _} (f : α → ℕ) (l : List α)
    (hs : l.Pairwise (fun x y => f x < f y)) (i : ℕ) :
    l.filter (fun x => decide (f x ≤ i)) =
      l.take (l.findIdx (fun x => decide (i < f x))) := by
  induction l with
  | nil => simp
  | cons a t ih =>
    rcases List.pairwise_cons.mp hs with ⟨hhead, htail⟩
    rw [List.findIdx_cons]
    by_cases hai : f a ≤ i
    · rw [List.filter_cons_of_pos (by simpa using hai)]
      have hna : decide (i < f a) = false := by simp; omega
      rw [hna]
      show a :: t.filter (fun x => decide (f x ≤ i)) =
        (a :: t).take (t.findIdx (fun x => decide (i < f x)) + 1)
      rw [List.take_succ_cons, ih htail]
    · have hpa : decide (i < f a) = true := by simp; omega
      rw [List.filter_cons_of_neg (by simpa using hai), hpa]
      show t.filter (fun x => decide (f x ≤ i)) = (a :: t).take 0
      rw [List.take_zero]
      apply List.filter_eq_nil_iff.mpr
      intro b hb
      have : f a < f b := hhead b hb
      simp
      omega

/-- First value of the skip index: on a non-empty strictly key-sorted list, the first
position with key above `0` is `1` when the head key is `0` and `0` otherwise. -/
theorem findIdx_pos_head {α : Type _} (f : α → ℕ) (a : α) (t : List α)
    (hs : (a :: t).Pairwise (fun x y => f x < f y)) :
    (a :: t).findIdx (fun x => decide (0 < f x)) = if f a = 0 then 1 else 0 := by
  rw [List.findIdx_cons]
  by_cases h0 : f a = 0
  · rw [if_pos h0]
    have hfa : decide (0 < f a) = false := by simp [h0]
    rw [hfa]
    cases t with
    | nil => rfl
    | cons b u =>
      have hab : f a < f b := (List.pairwise_cons.mp hs).1 b (by simp)
      rw [List.findIdx_cons]
      have hfb : decide (0 < f b) = true := by simp; omega
      rw [hfb]
      rfl
  · rw [if_neg h0]
    have hfa : decide (0 < f a) = true := by simp; omega
    rw [hfa]
    rfl

/-- The first position with key above `i` is below the length as soon as the last
element has key above `i`. -/
theorem findIdx_lt_of_last {α : Type _} (f : α → ℕ) (d : α) (l : List α)
    (h : 0 < l.length) (i : ℕ) (hlast : i < f (l.getD (l.length - 1) d)) :
    l.findIdx (fun x => decide (i < f x)) < l.length := by
  rw [List.getD_eq_getElem l d (by omega)] at hlast
  exact List.findIdx_lt_length_of_exists
    ⟨l[l.length - 1], List.getElem_mem (by omega), by simpa using hlast⟩

/-- How the first position with key above the threshold advances when the threshold
steps from `i` to `i + 1` on a strictly key-sorted list: it advances by one exactly
when the element at the old position has key `i + 1`. -/
theorem findIdx_succ_of_sorted {α : Type _} (f : α → ℕ) (d : α) (l : List α)
    (hs : l.Pairwise (fun x y => f x < f y)) (i : ℕ)
    (hklt : l.findIdx (fun x => decide (i < f x)) < l.length) :
    l.findIdx (fun x => decide (i + 1 < f x)) =
      (if f (l.getD (l.findIdx (fun x => decide (i < f x))) d) = i + 1
        then l.findIdx (fun x => decide (i < f x)) + 1
        else l.findIdx (fun x => decide (i < f x))) := by
  rw [List.getD_eq_getElem l d hklt]
  have hpk' : i < f (l[l.findIdx (fun x => decide (i < f x))]) := by
    have := @List.findIdx_getElem _ (fun x => decide (i < f x)) l hklt
    simpa using this
  have hprev : ∀ j (hj : j < l.findIdx (fun x => decide (i < f x))), f l[j] ≤ i := by
    intro j hj
    have := List.not_of_lt_findIdx hj
    simpa using this
  by_cases heq : f (l[l.findIdx (fun x => decide (i < f x))]) = i + 1
  · rw [if_pos heq]
    by_cases hk1 : l.findIdx (fun x => decide (i < f x)) + 1 < l.length
    · rw [List.findIdx_eq hk1]
      refine ⟨by
        have hlt := List.pairwise_iff_getElem.mp hs
          (l.findIdx (fun x => decide (i < f x)))
          (l.findIdx (fun x => decide (i < f x)) + 1) hklt hk1 (by omega)
        simp
        omega, ?_⟩
      intro j hj
      rcases Nat.lt_or_ge j (l.findIdx (fun x => decide (i < f x))) with hc | hc
      · have := hprev j hc
        simp
        omega
      · have hjk : j = l.findIdx (fun x => decide (i < f x)) := by omega
        subst hjk
        simp
        omega
    · have hkl : l.findIdx (fun x => decide (i < f x)) + 1 = l.length := by omega
      rw [hkl]
      apply List.findIdx_eq_length.mpr
      intro x hx
      obtain ⟨n, hn, rfl⟩ := List.getElem_of_mem hx
      rcases Nat.lt_or_ge n (l.findIdx (fun x => decide (i < f x))) with hc | hc
      · have := hprev n hc
        simp
        omega
      · have hjk : n = l.findIdx (fun x => decide (i < f x)) := by omega
        subst hjk
        simp
        omega
  · rw [if_neg heq]
    rw [List.findIdx_eq hklt]
    refine ⟨by simp; omega, ?_⟩
    intro j hj
    have := hprev j hj
    simp
    omega

/-- The segment record the loop emits at iteration `i`, in closed form over the route
tables. -/
def recAt (r : Route) (i : ℕ) : SegmentInfo :=
  let tEntry := r.turns.getD
    (r.turns.findIdx (fun t => decide (i - 1 < t.m_index))) TurnItem.mk0
  { turn := if tEntry.m_index = i then tEntry else TurnItem.mk0
    junctionPt := r.points.getD i 0
    altitude := if r.altitudes.isEmpty then kInvalidAltitude else r.altitudes.getD i 0
    distFromBeginningMeters := cumTo r.points i
    distFromBeginningMerc := cumTo r.points i
    timeFromBeginningS := recTimeSpec r i
    traffic := if r.traffic.isEmpty then SpeedGroup.Unknown
      else r.traffic.getD (i - 1) SpeedGroup.Unknown }

/-- The loop state at the start of iteration `i` (for `1 ≤ i`), in closed form: the
turn cursor sits at the first turn past vertex `i - 1`, the time cursor at the first
checkpoint past vertex `i - 1` but never below `1`, the two accumulated distances are
the arc length to vertex `i - 1`, and the output holds the records of edges
`1, ..., i - 1`. -/
def stAt (r : Route) (i : ℕ) : SubState :=
  { turnItemIdx := r.turns.findIdx (fun t => decide (i - 1 < t.m_index))
    timeIdx := max 1 (r.times.findIdx (fun t => decide (i - 1 < t.1)))
    distM := cumTo r.points (i - 1)
    distMerc := cumTo r.points (i - 1)
    acc := (List.range' 1 (i - 1)).map (recAt r) }

/-- The back-filled time value in the form the loop reads it: the entry just before
the first checkpoint past `i`, clamped to position `0`. -/
theorem recTimeSpec_eq_code (r : Route) (i : ℕ)
    (hs : r.times.Pairwise (fun x y => x.1 < y.1)) :
    recTimeSpec r i =
      (r.times.getD (max 1 (r.times.findIdx (fun t => decide (i < t.1))) - 1) (0, 0)).2 := by
  rw [recTimeSpec]
  rw [filter_le_eq_take_findIdx (fun t : ℕ × ℚ => t.1) r.times hs i]
  rcases Nat.eq_zero_or_pos (r.times.findIdx (fun t => decide (i < t.1))) with hk0 | hkp
  · rw [hk0, List.take_zero]
    rfl
  · have hkle : r.times.findIdx (fun t => decide (i < t.1)) ≤ r.times.length :=
      List.findIdx_le_length _
    have hlen : 0 < r.times.length := by omega
    have hmax : max 1 (r.times.findIdx (fun t => decide (i < t.1))) =
        r.times.findIdx (fun t => decide (i < t.1)) := by omega
    rw [hmax]
    have hk1 : r.times.findIdx (fun t => decide (i < t.1)) - 1 < r.times.length := by omega
    have htake : (r.times.take (r.times.findIdx (fun t => decide (i < t.1)))).getLast? =
        some (r.times.get ⟨r.times.findIdx (fun t => decide (i < t.1)) - 1, hk1⟩) := by
      rw [List.getLast?_eq_getElem?]
      have hlt : (r.times.take (r.times.findIdx (fun t => decide (i < t.1)))).length =
          r.times.findIdx (fun t => decide (i < t.1)) := by
        simp
        omega
      rw [hlt, List.getElem?_eq_getElem (by simp; omega)]
      simp [List.getElem_take]
    rw [htake]
    rw [List.getD_eq_getElem r.times (0, 0) hk1]
    simp [List.get_eq_getElem]

/-- One loop iteration takes the closed-form state at `i = j + 1` to the closed-form
state at `i + 1`, under the read-time table invariants plus the success conditions:
at least two time checkpoints, the first checkpoint after vertex `0`, and both the
last turn and the last checkpoint exactly at the final vertex. -/
theorem subrouteStep_closed (r : Route) (j : ℕ)
    (hts : r.turns.Pairwise (fun x y => x.m_index < y.m_index))
    (htne : 0 < r.turns.length)
    (hlastT : (r.turns.getD (r.turns.length - 1) TurnItem.mk0).m_index =
      r.points.length - 1)
    (htms : r.times.Pairwise (fun x y => x.1 < y.1))
    (htl2 : 2 ≤ r.times.length)
    (hlastTm : (r.times.getD (r.times.length - 1) (0, 0)).1 = r.points.length - 1)
    (hj : j + 1 ≤ r.points.length - 1) :
    getSubrouteInfoStep r (j + 1) (stAt r (j + 1)) = some (stAt r (j + 2)) := by
  have hN : 2 ≤ r.points.length := by omega
  have htmlen : 0 < r.times.length := by omega
  have hktlt : r.turns.findIdx (fun t => decide (j < t.m_index)) < r.turns.length :=
    findIdx_lt_of_last (fun t => t.m_index) TurnItem.mk0 r.turns htne j
      (by show j < (r.turns.getD (r.turns.length - 1) TurnItem.mk0).m_index
          rw [hlastT]
          omega)
  have hkmlt : r.times.findIdx (fun t => decide (j < t.1)) < r.times.length :=
    findIdx_lt_of_last (fun t => t.1) (0, 0) r.times htmlen j
      (by show j < (r.times.getD (r.times.length - 1) (0, 0)).1
          rw [hlastTm]
          omega)
  have hkmle2 : r.times.findIdx (fun t => decide (j + 1 < t.1)) ≤ r.times.length :=
    List.findIdx_le_length _
  have hmono : r.times.findIdx (fun t => decide (j < t.1)) ≤
      r.times.findIdx (fun t => decide (j + 1 < t.1)) := by
    apply findIdx_mono_pred
    intro a ha
    simp only [decide_eq_true_eq] at ha ⊢
    omega
  have htidxlt : max 1 (r.times.findIdx (fun t => decide (j < t.1))) < r.times.length := by
    omega
  have hktadv : r.turns.findIdx (fun t => decide (j + 1 < t.m_index)) =
      (if (r.turns.getD (r.turns.findIdx (fun t => decide (j < t.m_index)))
            TurnItem.mk0).m_index = j + 1
        then r.turns.findIdx (fun t => decide (j < t.m_index)) + 1
        else r.turns.findIdx (fun t => decide (j < t.m_index))) :=
    findIdx_succ_of_sorted (fun t => t.m_index) TurnItem.mk0 r.turns hts j hktlt
  have htimeadv :
      (if (r.times.getD (max 1 (r.times.findIdx (fun t => decide (j < t.1)))) (0, 0)).1 =
          j + 1
        then max 1 (r.times.findIdx (fun t => decide (j < t.1))) + 1
        else max 1 (r.times.findIdx (fun t => decide (j < t.1)))) =
      max 1 (r.times.findIdx (fun t => decide (j + 1 < t.1))) := by
    rcases Nat.eq_zero_or_pos (r.times.findIdx (fun t => decide (j < t.1))) with hkm0 | hkmp
    · have h1lt : 1 < r.times.length := by omega
      have hp0 : j < r.times[0].1 := by
        have := @List.findIdx_getElem _ (fun t : ℕ × ℚ => decide (j < t.1)) r.times hkmlt
        simp only [hkm0] at this
        simpa using this
      have h01 : r.times[0].1 < r.times[1].1 :=
        List.pairwise_iff_getElem.mp htms 0 1 (by omega) h1lt (by omega)
      have hk1le : r.times.findIdx (fun t => decide (j + 1 < t.1)) ≤ 1 := by
        by_contra hgt
        push_neg at hgt
        have h2 := @List.not_of_lt_findIdx _ (fun t : ℕ × ℚ => decide (j + 1 < t.1))
          r.times 1 (by omega)
        simp at h2
        omega
      rw [hkm0]
      have hgd1 : r.times.getD (max 1 0) (0, 0) = r.times[1] :=
        List.getD_eq_getElem r.times (0, 0) (by omega)
      rw [hgd1]
      rw [if_neg (by omega : ¬ r.times[1].1 = j + 1)]
      omega
    · have hmaxk : max 1 (r.times.findIdx (fun t => decide (j < t.1))) =
          r.times.findIdx (fun t => decide (j < t.1)) := by omega
      rw [hmaxk]
      have hadv := findIdx_succ_of_sorted (fun t => t.1) (0, 0) r.times htms j hkmlt
      rw [hadv]
      by_cases he : (r.times.getD (r.times.findIdx (fun t => decide (j < t.1))) (0, 0)).1 =
          j + 1
      · rw [if_pos he]
        omega
      · rw [if_neg he]
        omega
  have hprevlt : max 1 (r.times.findIdx (fun t => decide (j + 1 < t.1))) - 1 <
      r.times.length := by omega
  have h11 : j + 1 - 1 = j := rfl
  have h21 : j + 2 - 1 = j + 1 := rfl
  have hread1 : r.turns[r.turns.findIdx (fun t => decide (j < t.m_index))]? =
      some (r.turns.getD (r.turns.findIdx (fun t => decide (j < t.m_index)))
        TurnItem.mk0) := by
    rw [List.getElem?_eq_getElem hktlt, List.getD_eq_getElem r.turns TurnItem.mk0 hktlt]
  have hread2 : r.times[max 1 (r.times.findIdx (fun t => decide (j < t.1)))]? =
      some (r.times.getD (max 1 (r.times.findIdx (fun t => decide (j < t.1)))) (0, 0)) := by
    rw [List.getElem?_eq_getElem htidxlt, List.getD_eq_getElem r.times (0, 0) htidxlt]
  have hread3 : r.times[max 1 (r.times.findIdx (fun t => decide (j + 1 < t.1))) - 1]? =
      some (r.times.getD (max 1 (r.times.findIdx (fun t => decide (j + 1 < t.1))) - 1)
        (0, 0)) := by
    rw [List.getElem?_eq_getElem hprevlt, List.getD_eq_getElem r.times (0, 0) hprevlt]
  have hcum : cumTo r.points (j + 1) =
      cumTo r.points j + distOnEarth (r.points.getD j 0) (r.points.getD (j + 1) 0) := rfl
  have hacc : List.range' 1 (j + 1) = List.range' 1 j ++ [j + 1] := by
    simp [List.range'_concat, Nat.add_comm]
  have htime : (r.times.getD
      (max 1 (r.times.findIdx (fun t => decide (j + 1 < t.1))) - 1) (0, 0)).2 =
      recTimeSpec r (j + 1) := (recTimeSpec_eq_code r (j + 1) htms).symm
  simp only [getSubrouteInfoStep, stAt, h11, h21, hread1, hread2, htimeadv]
  rw [if_neg (by omega :
    ¬ max 1 (r.times.findIdx (fun t => decide (j + 1 < t.1))) = 0)]
  simp only [hread3, Option.some.injEq]
  rw [← hktadv, ← hcum, hacc]
  simp only [List.map_append, List.map_cons, List.map_nil, recAt, h11, htime]

/-- Running the loop with `n` iterations left from the closed-form state at
`i = length - n` lands on the closed-form state at `i = length`: every iteration
succeeds. -/
theorem subrouteLoop_closed (r : Route)
    (hts : r.turns.Pairwise (fun x y => x.m_index < y.m_index))
    (htne : 0 < r.turns.length)
    (hlastT : (r.turns.getD (r.turns.length - 1) TurnItem.mk0).m_index =
      r.points.length - 1)
    (htms : r.times.Pairwise (fun x y => x.1 < y.1))
    (htl2 : 2 ≤ r.times.length)
    (hlastTm : (r.times.getD (r.times.length - 1) (0, 0)).1 = r.points.length - 1) :
    ∀ n, n ≤ r.points.length - 1 →
      getSubrouteInfoLoop r n (stAt r (r.points.length - n)) =
        some (stAt r r.points.length) := by
  intro n
  induction n with
  | zero =>
    intro h
    simp [getSubrouteInfoLoop]
  | succ m ih =>
    intro hm
    obtain ⟨j, hj⟩ : ∃ j, r.points.length - (m + 1) = j + 1 :=
      ⟨r.points.length - (m + 1) - 1, by omega⟩
    simp only [getSubrouteInfoLoop]
    rw [hj]
    rw [subrouteStep_closed r j hts htne hlastT htms htl2 hlastTm (by omega)]
    show getSubrouteInfoLoop r m (stAt r (j + 2)) = some (stAt r r.points.length)
    have hj2 : j + 2 = r.points.length - m := by omega
    rw [hj2]
    exact ih (by omega)

/-- The two skip initialisers produce exactly the closed-form state at `i = 1`. -/
theorem subrouteInit_closed (r : Route)
    (hts : r.turns.Pairwise (fun x y => x.m_index < y.m_index))
    (htne : 0 < r.turns.length)
    (htmlen : 0 < r.times.length)
    (hfirst : 1 ≤ (r.times.getD 0 (0, 0)).1) :
    (⟨(if (r.turns.getD 0 TurnItem.mk0).m_index = 0 then 1 else 0),
      (if (r.times.getD 0 (0, 0)).1 ≠ 0 then 1 else 0), 0, 0, []⟩ : SubState) =
      stAt r 1 := by
  rw [stAt]
  have e1 : r.turns.findIdx (fun t => decide (1 - 1 < t.m_index)) =
      (if (r.turns.getD 0 TurnItem.mk0).m_index = 0 then 1 else 0) := by
    cases hr : r.turns with
    | nil =>
      rw [hr] at htne
      simp at htne
    | cons a t =>
      rw [hr] at hts
      have := findIdx_pos_head (fun t => t.m_index) a t hts
      simpa using this
  have e2 : max 1 (r.times.findIdx (fun t => decide (1 - 1 < t.1))) =
      (if (r.times.getD 0 (0, 0)).1 ≠ 0 then 1 else 0) := by
    cases hm : r.times with
    | nil =>
      rw [hm] at htmlen
      simp at htmlen
    | cons b u =>
      rw [hm] at hfirst
      have hb : (1 : ℕ) ≤ b.1 := by simpa using hfirst
      rw [List.findIdx_cons]
      have hd : decide (1 - 1 < b.1) = true := by
        simp
        omega
      rw [hd]
      have hbne : b.1 ≠ 0 := by omega
      simp [hbne]
  rw [e1, e2]
  rfl

/-- Under the read-time invariants and the success conditions, `GetSubrouteInfo`
succeeds and returns exactly the closed-form records of edges `1, ..., N - 1`. -/
theorem getSubrouteInfo_closed (r : Route)
    (hv : r.isValid = true)
    (hts : r.turns.Pairwise (fun x y => x.m_index < y.m_index))
    (htne : 0 < r.turns.length)
    (hlastT : (r.turns.getD (r.turns.length - 1) TurnItem.mk0).m_index =
      r.points.length - 1)
    (htms : r.times.Pairwise (fun x y => x.1 < y.1))
    (htl2 : 2 ≤ r.times.length)
    (hfirst : 1 ≤ (r.times.getD 0 (0, 0)).1)
    (hlastTm : (r.times.getD (r.times.length - 1) (0, 0)).1 = r.points.length - 1)
    (halt : r.altitudes = [] ∨ r.altitudes.length = r.points.length)
    (htr : r.traffic = [] ∨ r.traffic.length + 1 = r.points.length) :
    r.getSubrouteInfo = some ((List.range' 1 (r.points.length - 1)).map (recAt r)) := by
  have hN : 2 ≤ r.points.length := by
    have hpv : polyIsValid r.points = true := hv
    have := of_decide_eq_true hpv
    omega
  have h2 : r.turns.isEmpty = false := by
    cases ht : r.turns with
    | nil =>
      rw [ht] at htne
      simp at htne
    | cons a t => rfl
  have h2t : r.times.isEmpty = false := by
    cases ht : r.times with
    | nil =>
      rw [ht] at htl2
      simp at htl2
    | cons a t => rfl
  have h3 : (r.turns.getLastD TurnItem.mk0).m_index < r.points.length := by
    rw [getLastD_eq_getD_last r.turns TurnItem.mk0 htne, hlastT]
    omega
  have h7 : (r.times.getLastD (0, 0)).1 < r.points.length := by
    rw [getLastD_eq_getD_last r.times (0, 0) (by omega), hlastTm]
    omega
  have h5 : (r.altitudes.isEmpty || decide (r.altitudes.length = r.points.length)) =
      true := by
    rcases halt with h | h
    · rw [h]
      rfl
    · simp [h]
  have h9 : (r.traffic.isEmpty || decide (r.traffic.length + 1 = r.points.length)) =
      true := by
    rcases htr with h | h
    · rw [h]
      rfl
    · simp [h]
  have hchecks : subrouteChecks r = true := by
    rw [subrouteChecks]
    simp [hv, h2, h2t, h5, h9,
      adjWeakSortedNat_of_pairwise (fun t => t.m_index) r.turns hts,
      adjWeakSortedNat_of_pairwise (fun t => t.1) r.times htms]
    constructor
    · simpa [List.getLastD_eq_getLast?] using h3
    · simpa [List.getLastD_eq_getLast?] using h7
  rw [Route.getSubrouteInfo, if_pos hchecks]
  rw [subrouteInit_closed r hts htne (by omega) hfirst]
  have hloop := subrouteLoop_closed r hts htne hlastT htms htl2 hlastTm
    (r.points.length - 1) le_rfl
  have hidx : r.points.length - (r.points.length - 1) = 1 := by omega
  rw [hidx] at hloop
  rw [hloop]
  show some ((stAt r r.points.length).acc) =
    some ((List.range' 1 (r.points.length - 1)).map (recAt r))
  rw [stAt]

/-- C6 amended.  The claim's conclusion needs four extra preconditions beyond the
`CHECK`ed read-time invariants -- at least two time checkpoints, a first checkpoint
strictly after vertex 0, and the last turn and last checkpoint exactly at the final
vertex -- and the per-edge time rule must read: the value of the last checkpoint at
or before the edge when one exists, otherwise the FIRST checkpoint's value.  Under
those, the export yields exactly N - 1 records, with that time field, and the last
record's cumulative metric distance is exactly the total arc length. -/
theorem C6_subroute_info_amended (r : Route)
    (hv : r.isValid = true)
    (hts : r.turns.Pairwise (fun x y => x.m_index < y.m_index))
    (htne : 0 < r.turns.length)
    (hlastT : (r.turns.getD (r.turns.length - 1) TurnItem.mk0).m_index =
      r.points.length - 1)
    (htms : r.times.Pairwise (fun x y => x.1 < y.1))
    (htl2 : 2 ≤ r.times.length)
    (hfirst : 1 ≤ (r.times.getD 0 (0, 0)).1)
    (hlastTm : (r.times.getD (r.times.length - 1) (0, 0)).1 = r.points.length - 1)
    (halt : r.altitudes = [] ∨ r.altitudes.length = r.points.length)
    (htr : r.traffic = [] ∨ r.traffic.length + 1 = r.points.length) :
    ∃ recs, r.getSubrouteInfo = some recs ∧
      recs.length = r.points.length - 1 ∧
      (∀ k, 1 ≤ k → k ≤ r.points.length - 1 →
        (recs.getD (k - 1) segInfoDefault).timeFromBeginningS = recTimeSpec r k) ∧
      (recs.getLastD segInfoDefault).distFromBeginningMeters =
        cumTo r.points (r.points.length - 1) := by
  have hN : 2 ≤ r.points.length := by
    have hpv : polyIsValid r.points = true := hv
    have := of_decide_eq_true hpv
    omega
  have hmapget : ∀ (i : ℕ), i < r.points.length - 1 →
      ((List.range' 1 (r.points.length - 1)).map (recAt r)).getD i segInfoDefault =
        recAt r (1 + i) := by
    intro i hi
    rw [List.getD_eq_getElem _ segInfoDefault (by simp; omega)]
    simp [List.getElem_map, List.getElem_range']
  refine ⟨_, getSubrouteInfo_closed r hv hts htne hlastT htms htl2 hfirst hlastTm halt htr,
    by simp, ?_, ?_⟩
  · intro k hk1 hk2
    rw [hmapget (k - 1) (by omega)]
    have h1k : 1 + (k - 1) = k := by omega
    rw [h1k]
    rfl
  · rw [getLastD_eq_getD_last _ segInfoDefault (by simp; omega)]
    have hlen : ((List.range' 1 (r.points.length - 1)).map (recAt r)).length =
        r.points.length - 1 := by simp
    rw [hlen]
    rw [hmapget (r.points.length - 1 - 1) (by omega)]
    have h1 : 1 + (r.points.length - 1 - 1) = r.points.length - 1 := by omega
    rw [h1]
    rfl

/-- Witness route for the amended C6 theorem: 5 collinear points 100 m apart, a turn
and a time checkpoint at vertex 2, destination and final checkpoint at vertex 4. -/
def rC6w : Route :=
  { points := [0, 100, 200, 300, 400],
    turns := [⟨2, TurnDirection.TurnLeft⟩, ⟨4, TurnDirection.ReachedYourDestination⟩],
    times := [(2, 10), (4, 40)], streets := [], altitudes := [], traffic := [],
    matchingThresholdM := 50, matchRoute := true }

/-- Witness: the amended C6 theorem applied at `rC6w`. -/
theorem C6_witness :
    ∃ recs, rC6w.getSubrouteInfo = some recs ∧
      recs.length = rC6w.points.length - 1 ∧
      (∀ k, 1 ≤ k → k ≤ rC6w.points.length - 1 →
        (recs.getD (k - 1) segInfoDefault).timeFromBeginningS = recTimeSpec rC6w k) ∧
      (recs.getLastD segInfoDefault).distFromBeginningMeters =
        cumTo rC6w.points (rC6w.points.length - 1) :=
  C6_subroute_info_amended rC6w (by decide) (by decide) (by decide) (by decide)
    (by decide) (by decide) (by decide) (by decide) (by decide) (by decide)

end Routing
